import Mathlib

/-!
# Verification of the Legion-SNAP GPU sweep kernels

A shallow embedding, over exact rationals, of the CUDA sweep kernels in
`gpu_sweep.cu` of the Legion-SNAP repository:

* `initialize_gpu_context` (bounds checks, coefficient copies, scratch pool),
* the per-cell positivity-fixup loop of the fixup kernel variants,
* the four full chunk-sweep kernels
  (`gpu_time_{dependent,independent}_sweep_{with,without}_fixup`),
* the host dispatcher `run_gpu_sweep`.

Doubles are modelled as rationals (the algebraic content of the claims);
device arrays addressed through byte-stride triples are modelled as total
functions from grid points (resp. flat indices); the CTA's lanes are
modelled collectively: per-lane registers indexed by the global angle
index `ang * blockDim.x + threadIdx.x`, and the two-level butterfly
reductions by the exact sums they compute.
-/

/-- `Point<3>`: an integer 3-tuple identifying a spatial cell. -/
structure Pt where
  px : ℤ
  py : ℤ
  pz : ℤ
deriving DecidableEq

/-- `#define MAX_ANGLES 1024` -/
def MAX_ANGLES : ℕ := 1024

/-- `#define MAX_X_CHUNK 16` -/
def MAX_X_CHUNK : ℕ := 16

/-- `#define MAX_Y_CHUNK 16` -/
def MAX_Y_CHUNK : ℕ := 16

/-- `#define MAX_CTA 32` -/
def MAX_CTA : ℕ := 32

/-- `const double tolr = 1.0e-12;` (exactly representable reading of the
    literal; only its order of magnitude matters for the claims). -/
def tolr : ℚ := 1 / 10 ^ 12

/-- Capacity (in doubles) of the global table
    `__device__ double device_ec[8*4*MAX_ANGLES];`. -/
def ecTableCapacity : ℕ := 8 * 4 * MAX_ANGLES

/-- Number of doubles `initialize_gpu_context` copies into `device_ec`:
    `num_angles * num_moments * num_octants`. -/
def ecCopyCount (numAngles numMoments numOctants : ℕ) : ℕ :=
  numAngles * numMoments * numOctants

/-- The device-side global state written by `initialize_gpu_context`. -/
structure GPUContext where
  availableChunks : List ℕ
  deviceEc : List ℚ
  deviceMu : List ℚ
  deviceEta : List ℚ
  deviceXi : List ℚ
  deviceW : List ℚ
deriving DecidableEq

/-- `initialize_gpu_context`: asserts the three capacity bounds (an assert
    failure aborts the process, modelled as `none`), then marks all
    `MAX_CTA` scratch slots available (counter 1) and copies the
    coefficient arrays into the device tables with the lengths used by the
    `cudaMemcpyToSymbol` calls. -/
def initialize_gpu_context (ec_h mu_h eta_h xi_h w_h : List ℚ)
    (numAngles numMoments numOctants nxPerChunk nyPerChunk : ℕ) :
    Option GPUContext :=
  if numAngles > MAX_ANGLES then none
  else if nxPerChunk > MAX_X_CHUNK then none
  else if nyPerChunk > MAX_Y_CHUNK then none
  else some
    { availableChunks := List.replicate MAX_CTA 1
      deviceEc := ec_h.take (ecCopyCount numAngles numMoments numOctants)
      deviceMu := mu_h.take numAngles
      deviceEta := eta_h.take numAngles
      deviceXi := xi_h.take numAngles
      deviceW := w_h.take numAngles }

/-- The four `__global__` kernel templates `run_gpu_sweep` can launch. -/
inductive KernelVariant where
  | timeDependentWithFixup
  | timeDependentWithoutFixup
  | timeIndependentWithFixup
  | timeIndependentWithoutFixup
deriving DecidableEq

/-- A kernel launch as configured by `run_gpu_sweep`: which template, the
    `THR_ANGLES` specialization, and the CTA width `threads_per_cta`. -/
structure KernelLaunch where
  variant : KernelVariant
  thrAngles : ℕ
  threadsPerCta : ℕ
deriving DecidableEq

/-- The dispatch logic of `run_gpu_sweep`: derive `angles_per_thread` by
    ceiling division by `max_threads_per_cta = 1024`, assert even
    divisibility, then select the kernel by `fixup` and `vdelt != 0.0` and
    the specialization by the `switch (angles_per_thread)` whose `default`
    case asserts false.  Assertion failures are modelled as `none`. -/
def run_gpu_sweep (numAngles : ℕ) (vdelt : ℚ) (fixup : Bool) :
    Option KernelLaunch :=
  let maxThreadsPerCta : ℕ := 1024
  let anglesPerThread : ℕ := (numAngles + maxThreadsPerCta - 1) / maxThreadsPerCta
  if numAngles % anglesPerThread ≠ 0 then none
  else if anglesPerThread = 1 ∨ anglesPerThread = 2 then
    some
      { variant :=
          if fixup then
            if vdelt ≠ 0 then .timeDependentWithFixup
            else .timeIndependentWithFixup
          else
            if vdelt ≠ 0 then .timeDependentWithoutFixup
            else .timeIndependentWithoutFixup
        thrAngles := anglesPerThread
        threadsPerCta := numAngles / anglesPerThread }
  else none

/-!
## The per-cell positivity fixup loop

Faithful model of the `while (true)` fixup loop of the fixup kernel
variants.  The CTA's angles are modelled collectively: arrays over the
global angle index `0 ≤ a < nang` where `nang = THR_ANGLES * blockDim.x`.
The CTA-wide two-level butterfly reduction of `negative_fluxes` computes
exactly the sum of the per-lane counts, which is how it is modelled.  The
`while (true)` loop is given explicit fuel; the termination theorem below
shows the break is always reached within the fuel used by the kernels.
-/

/-- Read-only per-cell data the time-independent fixup loop consults. -/
structure FixupInTI where
  nang : ℕ
  psi : ℕ → ℚ
  psii : ℕ → ℚ
  psij : ℕ → ℚ
  psik : ℕ → ℚ
  mu : ℕ → ℚ
  eta : ℕ → ℚ
  xi : ℕ → ℚ
  hi : ℚ
  hj : ℚ
  hk : ℚ
  t_xs : ℚ

/-- Loop state on exit (time-independent): `pc`, the half-weight flags,
    the trial edge fluxes of the final evaluation, and whether the loop
    exited through its `break` (as opposed to running out of fuel). -/
structure FixupResTI where
  pc : ℕ → ℚ
  hvx : ℕ → ℚ
  hvy : ℕ → ℚ
  hvz : ℕ → ℚ
  fxx : ℕ → ℚ
  fxy : ℕ → ℚ
  fxz : ℕ → ℚ
  broke : Bool

/-- The CTA-combined count of negative trial edge fluxes for a given `pc`
    (the value every lane holds after the two-level reduction). -/
def negCountTI (P : FixupInTI) (pc : ℕ → ℚ) : ℕ :=
  Finset.sum (Finset.range P.nang) fun a =>
    (if 2 * pc a - P.psii a < 0 then 1 else 0) +
    (if 2 * pc a - P.psij a < 0 then 1 else 0) +
    (if 2 * pc a - P.psik a < 0 then 1 else 0)

/-- One recomputation of `pc[ang]` from the half-weight flags
    (lines 1240-1253 of the source): the convex-combination numerator,
    the effective denominator (taken as 0 when the numerator is not
    positive), with the `tolr` clamp. -/
def fixupRecomputeTI (P : FixupInTI) (hvx hvy hvz : ℕ → ℚ) (a : ℕ) : ℚ :=
  let pcv := P.psi a + 1 / 2 *
    (P.psii a * P.mu a * P.hi * (1 + hvx a) +
     P.psij a * P.eta a * P.hj * (1 + hvy a) +
     P.psik a * P.xi a * P.hk * (1 + hvz a))
  let den := if pcv ≤ 0 then 0 else
    P.t_xs + P.mu a * P.hi * hvx a + P.eta a * P.hj * hvy a +
      P.xi a * P.hk * hvz a
  if den < tolr then 0 else pcv / den

/-- The fixup `while (true)` loop, time-independent variant.  Each call
    performs one evaluation: trial fluxes `2*pc - incoming`, zeroing of the
    half-weight flags at negative trials, the CTA-combined count, and the
    break test against the previous count; otherwise `pc` is recomputed
    and the loop continues on the remaining fuel. -/
def fixupLoopTI (P : FixupInTI) :
    ℕ → ℕ → (ℕ → ℚ) → (ℕ → ℚ) → (ℕ → ℚ) → (ℕ → ℚ) → FixupResTI
  | fuel, old, pc, hvx, hvy, hvz =>
    let fxx : ℕ → ℚ := fun a => 2 * pc a - P.psii a
    let fxy : ℕ → ℚ := fun a => 2 * pc a - P.psij a
    let fxz : ℕ → ℚ := fun a => 2 * pc a - P.psik a
    let hvx' : ℕ → ℚ := fun a => if fxx a < 0 then 0 else hvx a
    let hvy' : ℕ → ℚ := fun a => if fxy a < 0 then 0 else hvy a
    let hvz' : ℕ → ℚ := fun a => if fxz a < 0 then 0 else hvz a
    let count := negCountTI P pc
    if count = old then ⟨pc, hvx', hvy', hvz', fxx, fxy, fxz, true⟩
    else
      match fuel with
      | 0 => ⟨pc, hvx', hvy', hvz', fxx, fxy, fxz, false⟩
      | fuel + 1 =>
          fixupLoopTI P fuel count
            (fun a => fixupRecomputeTI P hvx' hvy' hvz' a) hvx' hvy' hvz'

/-- The fixup loop as entered by the kernels: previous count 0 and all
    half-weight flags initialized to 1.0, with the fuel that provably
    suffices (`3 * nang + 2` evaluations counting the first). -/
def fixupRunTI (P : FixupInTI) (pc0 : ℕ → ℚ) : FixupResTI :=
  fixupLoopTI P (3 * P.nang + 2) 0 pc0
    (fun _ => 1) (fun _ => 1) (fun _ => 1)

/-- Observer returning the CTA-combined negative-flux count of every
    evaluation the loop performs (same iteration structure as
    `fixupLoopTI`). -/
def fixupCountsTI (P : FixupInTI) :
    ℕ → ℕ → (ℕ → ℚ) → (ℕ → ℚ) → (ℕ → ℚ) → (ℕ → ℚ) → List ℕ
  | fuel, old, pc, hvx, hvy, hvz =>
    let fxx : ℕ → ℚ := fun a => 2 * pc a - P.psii a
    let fxy : ℕ → ℚ := fun a => 2 * pc a - P.psij a
    let fxz : ℕ → ℚ := fun a => 2 * pc a - P.psik a
    let hvx' : ℕ → ℚ := fun a => if fxx a < 0 then 0 else hvx a
    let hvy' : ℕ → ℚ := fun a => if fxy a < 0 then 0 else hvy a
    let hvz' : ℕ → ℚ := fun a => if fxz a < 0 then 0 else hvz a
    let count := negCountTI P pc
    if count = old then [count]
    else
      match fuel with
      | 0 => [count]
      | fuel + 1 =>
          count :: fixupCountsTI P fuel count
            (fun a => fixupRecomputeTI P hvx' hvy' hvz' a) hvx' hvy' hvz'

/-- Read-only per-cell data the time-dependent fixup loop consults: as the
    time-independent one plus the incoming time flux and `vdelt`. -/
structure FixupInTD where
  nang : ℕ
  psi : ℕ → ℚ
  psii : ℕ → ℚ
  psij : ℕ → ℚ
  psik : ℕ → ℚ
  timeFluxIn : ℕ → ℚ
  mu : ℕ → ℚ
  eta : ℕ → ℚ
  xi : ℕ → ℚ
  hi : ℚ
  hj : ℚ
  hk : ℚ
  vdelt : ℚ
  t_xs : ℚ

/-- Exit state of the time-dependent fixup loop (four flux axes). -/
structure FixupResTD where
  pc : ℕ → ℚ
  hvx : ℕ → ℚ
  hvy : ℕ → ℚ
  hvz : ℕ → ℚ
  hvt : ℕ → ℚ
  fxx : ℕ → ℚ
  fxy : ℕ → ℚ
  fxz : ℕ → ℚ
  fxt : ℕ → ℚ
  broke : Bool

/-- CTA-combined negative-trial-flux count, time-dependent variant
    (four axes: x, y, z and time). -/
def negCountTD (P : FixupInTD) (pc : ℕ → ℚ) : ℕ :=
  Finset.sum (Finset.range P.nang) fun a =>
    (if 2 * pc a - P.psii a < 0 then 1 else 0) +
    (if 2 * pc a - P.psij a < 0 then 1 else 0) +
    (if 2 * pc a - P.psik a < 0 then 1 else 0) +
    (if 2 * pc a - P.timeFluxIn a < 0 then 1 else 0)

/-- One recomputation of `pc[ang]` in the time-dependent fixup loop
    (lines 444-458 of the source), including the `vdelt` terms. -/
def fixupRecomputeTD (P : FixupInTD) (hvx hvy hvz hvt : ℕ → ℚ) (a : ℕ) : ℚ :=
  let pcv := P.psi a + 1 / 2 *
    (P.psii a * P.mu a * P.hi * (1 + hvx a) +
     P.psij a * P.eta a * P.hj * (1 + hvy a) +
     P.psik a * P.xi a * P.hk * (1 + hvz a) +
     P.timeFluxIn a * P.vdelt * (1 + hvt a))
  let den := if pcv ≤ 0 then 0 else
    P.t_xs + P.mu a * P.hi * hvx a + P.eta a * P.hj * hvy a +
      P.xi a * P.hk * hvz a + P.vdelt * hvt a
  if den < tolr then 0 else pcv / den

/-- The fixup `while (true)` loop, time-dependent variant. -/
def fixupLoopTD (P : FixupInTD) :
    ℕ → ℕ → (ℕ → ℚ) → (ℕ → ℚ) → (ℕ → ℚ) → (ℕ → ℚ) → (ℕ → ℚ) → FixupResTD
  | fuel, old, pc, hvx, hvy, hvz, hvt =>
    let fxx : ℕ → ℚ := fun a => 2 * pc a - P.psii a
    let fxy : ℕ → ℚ := fun a => 2 * pc a - P.psij a
    let fxz : ℕ → ℚ := fun a => 2 * pc a - P.psik a
    let fxt : ℕ → ℚ := fun a => 2 * pc a - P.timeFluxIn a
    let hvx' : ℕ → ℚ := fun a => if fxx a < 0 then 0 else hvx a
    let hvy' : ℕ → ℚ := fun a => if fxy a < 0 then 0 else hvy a
    let hvz' : ℕ → ℚ := fun a => if fxz a < 0 then 0 else hvz a
    let hvt' : ℕ → ℚ := fun a => if fxt a < 0 then 0 else hvt a
    let count := negCountTD P pc
    if count = old then ⟨pc, hvx', hvy', hvz', hvt', fxx, fxy, fxz, fxt, true⟩
    else
      match fuel with
      | 0 => ⟨pc, hvx', hvy', hvz', hvt', fxx, fxy, fxz, fxt, false⟩
      | fuel + 1 =>
          fixupLoopTD P fuel count
            (fun a => fixupRecomputeTD P hvx' hvy' hvz' hvt' a)
            hvx' hvy' hvz' hvt'

/-- The time-dependent fixup loop as entered by the kernel: previous count
    0 and all four flag arrays initialized to 1.0. -/
def fixupRunTD (P : FixupInTD) (pc0 : ℕ → ℚ) : FixupResTD :=
  fixupLoopTD P (4 * P.nang + 2) 0 pc0
    (fun _ => 1) (fun _ => 1) (fun _ => 1) (fun _ => 1)

/-!
## The chunk sweep kernels

Shallow embedding of the four `__global__` sweep kernels.  A kernel
invocation is one compute unit (CTA) marching its 3D chunk in the nested
`z`/`y`/`x` loop order.  Strided arrays are modelled as total functions on
`Pt` (resp. on the global angle index); `angle_read`/`angle_write` at
`ptr + offset*point + ang*blockDim.x + threadIdx.x` become evaluation and
pointwise update of such a function at `(point, global angle)`.  The
per-CTA scratch pencil/plane buffers are carried alongside the per-lane
registers `psii`/`psij`/`psik` in `SweepRegs`.
-/

/-- Launch configuration and the immutable device tables a sweep kernel
    reads (`device_ec`, `device_mu`, `device_eta`, `device_xi`,
    `device_w` as flat per-index tables). -/
structure SweepCfg where
  origin : Pt
  xRange : ℕ
  yRange : ℕ
  zRange : ℕ
  corner : ℕ
  strideXPositive : Bool
  strideYPositive : Bool
  strideZPositive : Bool
  mmsSource : Bool
  numMoments : ℕ
  hi : ℚ
  hj : ℚ
  hk : ℚ
  vdelt : ℚ
  thrAngles : ℕ
  blockDimX : ℕ
  ec : ℕ → ℚ
  mu : ℕ → ℚ
  eta : ℕ → ℚ
  xi : ℕ → ℚ
  w : ℕ → ℚ

/-- `num_angles = THR_ANGLES * blockDim.x`. -/
def cfgNang (cfg : SweepCfg) : ℕ := cfg.thrAngles * cfg.blockDimX

/-- The caller-supplied memory regions a sweep kernel addresses. -/
structure SweepMem where
  qtot : Pt → ℕ → ℚ
  flux : Pt → ℚ
  fluxm : Pt → ℕ → ℚ
  dinv : Pt → ℕ → ℚ
  timeFluxIn : Pt → ℕ → ℚ
  timeFluxOut : Pt → ℕ → ℚ
  t_xs : Pt → ℚ
  ghostxOut : Pt → ℕ → ℚ
  ghostyOut : Pt → ℕ → ℚ
  ghostzOut : Pt → ℕ → ℚ
  qim : Pt → ℕ → ℚ
  ghostxIn : Pt → ℕ → ℚ
  ghostyIn : Pt → ℕ → ℚ
  ghostzIn : Pt → ℕ → ℚ

/-- Per-lane registers (collected over the global angle index) and the
    CTA's scratch-slot pencil/plane buffers. -/
structure SweepRegs where
  psii : ℕ → ℚ
  psij : ℕ → ℚ
  psik : ℕ → ℚ
  pencil : ℕ → ℕ → ℚ
  plane : ℕ → ℕ → ℕ → ℚ

/-- The cell the loop indices `(x,y,z)` address: `origin` moved by `±x`,
    `±y`, `±z` according to the stride-direction booleans. -/
def localPoint (origin : Pt) (sx sy sz : Bool) (x y z : ℕ) : Pt :=
  { px := origin.px + (if sx then (x : ℤ) else -(x : ℤ))
    py := origin.py + (if sy then (y : ℤ) else -(y : ℤ))
    pz := origin.pz + (if sz then (z : ℤ) else -(z : ℤ)) }

/-- The x-axis ghost cell: `x-1` when striding positively, else `x+1`. -/
def ghostPtX (sx : Bool) (pt : Pt) : Pt :=
  { pt with px := pt.px + (if sx then -1 else 1) }

/-- The y-axis ghost cell. -/
def ghostPtY (sy : Bool) (pt : Pt) : Pt :=
  { pt with py := pt.py + (if sy then -1 else 1) }

/-- The z-axis ghost cell. -/
def ghostPtZ (sz : Bool) (pt : Pt) : Pt :=
  { pt with pz := pt.pz + (if sz then -1 else 1) }

/-- Overwrite the per-angle vector an array holds at one grid point
    (the effect of the `angle_write` loops). -/
def updAngleFn (f : Pt → ℕ → ℚ) (pt : Pt) (g : ℕ → ℚ) : Pt → ℕ → ℚ :=
  fun p a => if p = pt then g a else f p a

/-- The device `atomicAdd` on doubles (the compare-and-swap retry loop
    computing `old + value`): pointwise addition at one address. -/
def atomicAdd (f : Pt → ℚ) (pt : Pt) (v : ℚ) : Pt → ℚ :=
  fun p => if p = pt then f p + v else f p

/-- The angular source (step 1 of every kernel):
    `psi = quad[0] + Σ_{l=1..num_moments-1} ec[moment_offset + a] * quad[l]`
    with `moment_offset = corner*num_angles*num_moments + l*num_angles`,
    `a` the lane's global angle index, plus the MMS contribution when
    enabled. -/
def sourcePsi (cfg : SweepCfg) (qtot qim : Pt → ℕ → ℚ) (pt : Pt) (a : ℕ) : ℚ :=
  qtot pt 0 +
  (Finset.sum (Finset.Ico 1 cfg.numMoments) fun l =>
    cfg.ec (cfg.corner * cfgNang cfg * cfg.numMoments + l * cfgNang cfg + a) *
      qtot pt l) +
  (if cfg.mmsSource then qim pt a else 0)

/-- The diagonal solve of the time-independent kernels: `pc` accumulated
    from the source and the three incoming edge fluxes, then multiplied by
    `dinv`. -/
def pcDiagTI (psi psiiv psijv psikv muv etav xiv hi hj hk dinvv : ℚ) : ℚ :=
  (psi + psiiv * muv * hi + psijv * etav * hj + psikv * xiv * hk) * dinvv

/-- The diagonal solve of the time-dependent kernels: additionally the
    `vdelt * time_flux_in` term. -/
def pcDiagTD (psi psiiv psijv psikv tfin muv etav xiv hi hj hk vdelt dinvv : ℚ) :
    ℚ :=
  (psi + psiiv * muv * hi + psijv * etav * hj + psikv * xiv * hk +
    vdelt * tfin) * dinvv

/-- The no-fixup outgoing edge value: `2*pc - incoming`. -/
def noFixupOut (pc inc : ℚ) : ℚ := 2 * pc - inc

/-- The value the CTA adds to a higher-moment field: each thread `t` sums
    `device_ec[offset + ang] * psi[ang]` over its `THR_ANGLES` local
    angles (with `psi[ang]` its register `w * pc` for global angle
    `ang * blockDim.x + t`), and the two-level reduction sums the
    per-thread partials. -/
def momentReductionTotal (ec : ℕ → ℚ) (thrAngles blockDimX offset : ℕ)
    (psiW : ℕ → ℚ) : ℚ :=
  Finset.sum (Finset.range blockDimX) fun t =>
    Finset.sum (Finset.range thrAngles) fun ang =>
      ec (offset + ang) * psiW (ang * blockDimX + t)

/-- One pass of the higher-moment accumulation loop for moment `l`:
    atomically add `momentReductionTotal` at
    `offset = l*num_angles + corner*num_angles*num_moments` into component
    `l-1` of the cell's moment field. -/
def momentStep (cfg : SweepCfg) (pt : Pt) (psiW : ℕ → ℚ)
    (fm : Pt → ℕ → ℚ) (l : ℕ) : Pt → ℕ → ℚ :=
  fun p m =>
    if p = pt ∧ m = l - 1 then
      fm p m + momentReductionTotal cfg.ec cfg.thrAngles cfg.blockDimX
        (l * cfgNang cfg + cfg.corner * cfgNang cfg * cfg.numMoments) psiW
    else fm p m

/-- The higher-moment accumulation loop (`for l = 1; l < num_moments`). -/
def momentAccum (cfg : SweepCfg) (pt : Pt) (psiW : ℕ → ℚ)
    (fluxm : Pt → ℕ → ℚ) : Pt → ℕ → ℚ :=
  (List.range' 1 (cfg.numMoments - 1)).foldl (momentStep cfg pt psiW) fluxm

/-- Incoming x edge flux: from the x ghost-in array when `x = 0`, else the
    lane's `psii` register (the previous cell's outgoing flux). -/
def readPsii (cfg : SweepCfg) (mem : SweepMem) (regs : SweepRegs)
    (x : ℕ) (pt : Pt) (a : ℕ) : ℚ :=
  if x = 0 then mem.ghostxIn (ghostPtX cfg.strideXPositive pt) a
  else regs.psii a

/-- Incoming y edge flux: ghost-in when `y = 0`, else the pencil buffer
    `yflux_pencils[chunk][x]`. -/
def readPsij (cfg : SweepCfg) (mem : SweepMem) (regs : SweepRegs)
    (x y : ℕ) (pt : Pt) (a : ℕ) : ℚ :=
  if y = 0 then mem.ghostyIn (ghostPtY cfg.strideYPositive pt) a
  else regs.pencil x a

/-- Incoming z edge flux: ghost-in when `z = 0`, else the plane buffer
    `zflux_planes[chunk][y][x]`. -/
def readPsik (cfg : SweepCfg) (mem : SweepMem) (regs : SweepRegs)
    (x y z : ℕ) (pt : Pt) (a : ℕ) : ℚ :=
  if z = 0 then mem.ghostzIn (ghostPtZ cfg.strideZPositive pt) a
  else regs.plane y x a

/-- One cell of `gpu_time_independent_sweep_without_fixup`
    (lines 1444-1704 of the source). -/
def cellBodyTINoFix (cfg : SweepCfg) (s : SweepMem × SweepRegs)
    (c : ℕ × ℕ × ℕ) : SweepMem × SweepRegs :=
  let mem := s.1
  let regs := s.2
  let x := c.1
  let y := c.2.1
  let z := c.2.2
  let nang := cfgNang cfg
  let pt := localPoint cfg.origin cfg.strideXPositive cfg.strideYPositive
    cfg.strideZPositive x y z
  let psi : ℕ → ℚ := fun a => sourcePsi cfg mem.qtot mem.qim pt a
  let psiiIn : ℕ → ℚ := fun a => readPsii cfg mem regs x pt a
  let psijIn : ℕ → ℚ := fun a => readPsij cfg mem regs x y pt a
  let psikIn : ℕ → ℚ := fun a => readPsik cfg mem regs x y z pt a
  let pc : ℕ → ℚ := fun a =>
    pcDiagTI (psi a) (psiiIn a) (psijIn a) (psikIn a) (cfg.mu a) (cfg.eta a)
      (cfg.xi a) cfg.hi cfg.hj cfg.hk (mem.dinv pt a)
  let psiiOut : ℕ → ℚ := fun a => noFixupOut (pc a) (psiiIn a)
  let psijOut : ℕ → ℚ := fun a => noFixupOut (pc a) (psijIn a)
  let psikOut : ℕ → ℚ := fun a => noFixupOut (pc a) (psikIn a)
  let psiW : ℕ → ℚ := fun a => cfg.w a * pc a
  ({ mem with
      ghostxOut := if x = cfg.xRange - 1 then updAngleFn mem.ghostxOut pt psiiOut
        else mem.ghostxOut
      ghostyOut := if y = cfg.yRange - 1 then updAngleFn mem.ghostyOut pt psijOut
        else mem.ghostyOut
      ghostzOut := if z = cfg.zRange - 1 then updAngleFn mem.ghostzOut pt psikOut
        else mem.ghostzOut
      flux := atomicAdd mem.flux pt (Finset.sum (Finset.range nang) psiW)
      fluxm := momentAccum cfg pt psiW mem.fluxm },
   { psii := psiiOut
     psij := psijOut
     psik := psikOut
     pencil := if y = cfg.yRange - 1 then regs.pencil
       else fun x' a => if x' = x then psijOut a else regs.pencil x' a
     plane := if z = cfg.zRange - 1 then regs.plane
       else fun y' x' a => if y' = y ∧ x' = x then psikOut a
         else regs.plane y' x' a })

/-- One cell of `gpu_time_independent_sweep_with_fixup`
    (lines 1025-1359 of the source): diagonal solve, then the fixup loop,
    then write-back of the flag-masked outgoing fluxes. -/
def cellBodyTIFix (cfg : SweepCfg) (s : SweepMem × SweepRegs)
    (c : ℕ × ℕ × ℕ) : SweepMem × SweepRegs :=
  let mem := s.1
  let regs := s.2
  let x := c.1
  let y := c.2.1
  let z := c.2.2
  let nang := cfgNang cfg
  let pt := localPoint cfg.origin cfg.strideXPositive cfg.strideYPositive
    cfg.strideZPositive x y z
  let psi : ℕ → ℚ := fun a => sourcePsi cfg mem.qtot mem.qim pt a
  let psiiIn : ℕ → ℚ := fun a => readPsii cfg mem regs x pt a
  let psijIn : ℕ → ℚ := fun a => readPsij cfg mem regs x y pt a
  let psikIn : ℕ → ℚ := fun a => readPsik cfg mem regs x y z pt a
  let pc0 : ℕ → ℚ := fun a =>
    pcDiagTI (psi a) (psiiIn a) (psijIn a) (psikIn a) (cfg.mu a) (cfg.eta a)
      (cfg.xi a) cfg.hi cfg.hj cfg.hk (mem.dinv pt a)
  let fr := fixupRunTI
    { nang := nang, psi := psi, psii := psiiIn, psij := psijIn
      psik := psikIn, mu := cfg.mu, eta := cfg.eta, xi := cfg.xi
      hi := cfg.hi, hj := cfg.hj, hk := cfg.hk, t_xs := mem.t_xs pt } pc0
  let psiiOut : ℕ → ℚ := fun a => fr.fxx a * fr.hvx a
  let psijOut : ℕ → ℚ := fun a => fr.fxy a * fr.hvy a
  let psikOut : ℕ → ℚ := fun a => fr.fxz a * fr.hvz a
  let psiW : ℕ → ℚ := fun a => cfg.w a * fr.pc a
  ({ mem with
      ghostxOut := if x = cfg.xRange - 1 then updAngleFn mem.ghostxOut pt psiiOut
        else mem.ghostxOut
      ghostyOut := if y = cfg.yRange - 1 then updAngleFn mem.ghostyOut pt psijOut
        else mem.ghostyOut
      ghostzOut := if z = cfg.zRange - 1 then updAngleFn mem.ghostzOut pt psikOut
        else mem.ghostzOut
      flux := atomicAdd mem.flux pt (Finset.sum (Finset.range nang) psiW)
      fluxm := momentAccum cfg pt psiW mem.fluxm },
   { psii := psiiOut
     psij := psijOut
     psik := psikOut
     pencil := if y = cfg.yRange - 1 then regs.pencil
       else fun x' a => if x' = x then psijOut a else regs.pencil x' a
     plane := if z = cfg.zRange - 1 then regs.plane
       else fun y' x' a => if y' = y ∧ x' = x then psikOut a
         else regs.plane y' x' a })

/-- One cell of `gpu_time_dependent_sweep_without_fixup`
    (lines 659-932 of the source): the time term joins the accumulation
    and `time_flux_out = 2*pc - time_flux_in` is written unconditionally. -/
def cellBodyTDNoFix (cfg : SweepCfg) (s : SweepMem × SweepRegs)
    (c : ℕ × ℕ × ℕ) : SweepMem × SweepRegs :=
  let mem := s.1
  let regs := s.2
  let x := c.1
  let y := c.2.1
  let z := c.2.2
  let nang := cfgNang cfg
  let pt := localPoint cfg.origin cfg.strideXPositive cfg.strideYPositive
    cfg.strideZPositive x y z
  let psi : ℕ → ℚ := fun a => sourcePsi cfg mem.qtot mem.qim pt a
  let psiiIn : ℕ → ℚ := fun a => readPsii cfg mem regs x pt a
  let psijIn : ℕ → ℚ := fun a => readPsij cfg mem regs x y pt a
  let psikIn : ℕ → ℚ := fun a => readPsik cfg mem regs x y z pt a
  let tfin : ℕ → ℚ := fun a => mem.timeFluxIn pt a
  let pc : ℕ → ℚ := fun a =>
    pcDiagTD (psi a) (psiiIn a) (psijIn a) (psikIn a) (tfin a) (cfg.mu a)
      (cfg.eta a) (cfg.xi a) cfg.hi cfg.hj cfg.hk cfg.vdelt (mem.dinv pt a)
  let psiiOut : ℕ → ℚ := fun a => noFixupOut (pc a) (psiiIn a)
  let psijOut : ℕ → ℚ := fun a => noFixupOut (pc a) (psijIn a)
  let psikOut : ℕ → ℚ := fun a => noFixupOut (pc a) (psikIn a)
  let psiW : ℕ → ℚ := fun a => cfg.w a * pc a
  ({ mem with
      timeFluxOut := updAngleFn mem.timeFluxOut pt
        (fun a => noFixupOut (pc a) (tfin a))
      ghostxOut := if x = cfg.xRange - 1 then updAngleFn mem.ghostxOut pt psiiOut
        else mem.ghostxOut
      ghostyOut := if y = cfg.yRange - 1 then updAngleFn mem.ghostyOut pt psijOut
        else mem.ghostyOut
      ghostzOut := if z = cfg.zRange - 1 then updAngleFn mem.ghostzOut pt psikOut
        else mem.ghostzOut
      flux := atomicAdd mem.flux pt (Finset.sum (Finset.range nang) psiW)
      fluxm := momentAccum cfg pt psiW mem.fluxm },
   { psii := psiiOut
     psij := psijOut
     psik := psikOut
     pencil := if y = cfg.yRange - 1 then regs.pencil
       else fun x' a => if x' = x then psijOut a else regs.pencil x' a
     plane := if z = cfg.zRange - 1 then regs.plane
       else fun y' x' a => if y' = y ∧ x' = x then psikOut a
         else regs.plane y' x' a })

/-- One cell of `gpu_time_dependent_sweep_with_fixup`
    (lines 209-573 of the source): four-axis fixup and flag-masked
    `time_flux_out = fx_hv_t * hv_t`. -/
def cellBodyTDFix (cfg : SweepCfg) (s : SweepMem × SweepRegs)
    (c : ℕ × ℕ × ℕ) : SweepMem × SweepRegs :=
  let mem := s.1
  let regs := s.2
  let x := c.1
  let y := c.2.1
  let z := c.2.2
  let nang := cfgNang cfg
  let pt := localPoint cfg.origin cfg.strideXPositive cfg.strideYPositive
    cfg.strideZPositive x y z
  let psi : ℕ → ℚ := fun a => sourcePsi cfg mem.qtot mem.qim pt a
  let psiiIn : ℕ → ℚ := fun a => readPsii cfg mem regs x pt a
  let psijIn : ℕ → ℚ := fun a => readPsij cfg mem regs x y pt a
  let psikIn : ℕ → ℚ := fun a => readPsik cfg mem regs x y z pt a
  let tfin : ℕ → ℚ := fun a => mem.timeFluxIn pt a
  let pc0 : ℕ → ℚ := fun a =>
    pcDiagTD (psi a) (psiiIn a) (psijIn a) (psikIn a) (tfin a) (cfg.mu a)
      (cfg.eta a) (cfg.xi a) cfg.hi cfg.hj cfg.hk cfg.vdelt (mem.dinv pt a)
  let fr := fixupRunTD
    { nang := nang, psi := psi, psii := psiiIn, psij := psijIn
      psik := psikIn, timeFluxIn := tfin, mu := cfg.mu, eta := cfg.eta
      xi := cfg.xi, hi := cfg.hi, hj := cfg.hj, hk := cfg.hk
      vdelt := cfg.vdelt, t_xs := mem.t_xs pt } pc0
  let psiiOut : ℕ → ℚ := fun a => fr.fxx a * fr.hvx a
  let psijOut : ℕ → ℚ := fun a => fr.fxy a * fr.hvy a
  let psikOut : ℕ → ℚ := fun a => fr.fxz a * fr.hvz a
  let psiW : ℕ → ℚ := fun a => cfg.w a * fr.pc a
  ({ mem with
      timeFluxOut := updAngleFn mem.timeFluxOut pt
        (fun a => fr.fxt a * fr.hvt a)
      ghostxOut := if x = cfg.xRange - 1 then updAngleFn mem.ghostxOut pt psiiOut
        else mem.ghostxOut
      ghostyOut := if y = cfg.yRange - 1 then updAngleFn mem.ghostyOut pt psijOut
        else mem.ghostyOut
      ghostzOut := if z = cfg.zRange - 1 then updAngleFn mem.ghostzOut pt psikOut
        else mem.ghostzOut
      flux := atomicAdd mem.flux pt (Finset.sum (Finset.range nang) psiW)
      fluxm := momentAccum cfg pt psiW mem.fluxm },
   { psii := psiiOut
     psij := psijOut
     psik := psikOut
     pencil := if y = cfg.yRange - 1 then regs.pencil
       else fun x' a => if x' = x then psijOut a else regs.pencil x' a
     plane := if z = cfg.zRange - 1 then regs.plane
       else fun y' x' a => if y' = y ∧ x' = x then psikOut a
         else regs.plane y' x' a })

/-- The nested `for (z) for (y) for (x)` traversal order of the chunk. -/
def sweepCells (xr yr zr : ℕ) : List (ℕ × ℕ × ℕ) :=
  (List.range zr).flatMap fun z =>
    (List.range yr).flatMap fun y =>
      (List.range xr).map fun x => (x, y, z)

/-- `gpu_time_dependent_sweep_with_fixup` as a chunk-level transformer. -/
def gpu_time_dependent_sweep_with_fixup (cfg : SweepCfg)
    (s : SweepMem × SweepRegs) : SweepMem × SweepRegs :=
  (sweepCells cfg.xRange cfg.yRange cfg.zRange).foldl (cellBodyTDFix cfg) s

/-- `gpu_time_dependent_sweep_without_fixup` as a chunk-level transformer. -/
def gpu_time_dependent_sweep_without_fixup (cfg : SweepCfg)
    (s : SweepMem × SweepRegs) : SweepMem × SweepRegs :=
  (sweepCells cfg.xRange cfg.yRange cfg.zRange).foldl (cellBodyTDNoFix cfg) s

/-- `gpu_time_independent_sweep_with_fixup` as a chunk-level transformer. -/
def gpu_time_independent_sweep_with_fixup (cfg : SweepCfg)
    (s : SweepMem × SweepRegs) : SweepMem × SweepRegs :=
  (sweepCells cfg.xRange cfg.yRange cfg.zRange).foldl (cellBodyTIFix cfg) s

/-- `gpu_time_independent_sweep_without_fixup` as a chunk-level transformer. -/
def gpu_time_independent_sweep_without_fixup (cfg : SweepCfg)
    (s : SweepMem × SweepRegs) : SweepMem × SweepRegs :=
  (sweepCells cfg.xRange cfg.yRange cfg.zRange).foldl (cellBodyTINoFix cfg) s

/-!
## Auxiliary notions used by the statements and proofs
-/

/-- Modelled from the spec (claim C1): the moment reduction the spec
    describes, `Σ_angle ec[corner,l,angle] * weighted[angle]`, with `ec`
    indexed by the per-lane global angle index
    `offset + ang*blockDim.x + threadIdx.x` — the indexing scheme of the
    angular-source step. -/
def specMomentReductionTotal (ec : ℕ → ℚ) (thrAngles blockDimX offset : ℕ)
    (psiW : ℕ → ℚ) : ℚ :=
  Finset.sum (Finset.range blockDimX) fun t =>
    Finset.sum (Finset.range thrAngles) fun ang =>
      ec (offset + (ang * blockDimX + t)) * psiW (ang * blockDimX + t)

/-- Pointwise addition of an offset to the two accumulation targets
    (scalar flux and moment fields) of a sweep memory state. -/
def addFluxMem (f : Pt → ℚ) (g : Pt → ℕ → ℚ) (m : SweepMem) : SweepMem :=
  { m with
    flux := fun p => m.flux p + f p
    fluxm := fun p l => m.fluxm p l + g p l }

/-- The read-only inputs of a sweep invocation are unchanged from `m` to
    `m'`. -/
def roPreserved (m m' : SweepMem) : Prop :=
  m'.qtot = m.qtot ∧ m'.dinv = m.dinv ∧ m'.t_xs = m.t_xs ∧
  m'.qim = m.qim ∧ m'.timeFluxIn = m.timeFluxIn ∧
  m'.ghostxIn = m.ghostxIn ∧ m'.ghostyIn = m.ghostyIn ∧
  m'.ghostzIn = m.ghostzIn

/-- Number of not-yet-zeroed half-weight flags (time-independent loop):
    the termination measure of the fixup loop. -/
def hvFlagCountTI (P : FixupInTI) (hvx hvy hvz : ℕ → ℚ) : ℕ :=
  Finset.sum (Finset.range P.nang) fun a =>
    (if hvx a = 0 then 0 else 1) + (if hvy a = 0 then 0 else 1) +
    (if hvz a = 0 then 0 else 1)

/-- Number of not-yet-zeroed half-weight flags (time-dependent loop). -/
def hvFlagCountTD (P : FixupInTD) (hvx hvy hvz hvt : ℕ → ℚ) : ℕ :=
  Finset.sum (Finset.range P.nang) fun a =>
    (if hvx a = 0 then 0 else 1) + (if hvy a = 0 then 0 else 1) +
    (if hvz a = 0 then 0 else 1) + (if hvt a = 0 then 0 else 1)

/-!
## Concrete inputs used by the counterexamples
-/

/-- A two-angle per-cell fixup input on which the CTA-combined
    negative-flux count grows from one evaluation to the next, and the
    loop needs five evaluations (four iterations beyond the first). -/
def fixCxP : FixupInTI :=
  { nang := 2
    psi := fun _ => 0
    psii := fun a => if a = 0 then 5 else 1 / 8
    psij := fun a => if a = 0 then 1 else 0
    psik := fun a => if a = 0 then 3 / 4 else 5
    mu := fun a => if a = 0 then 1 / 4 else 0
    eta := fun a => if a = 0 then 3 / 4 else 0
    xi := fun a => if a = 0 then 1 / 10 else 2
    hi := 1
    hj := 1
    hk := 1
    t_xs := 3 }

/-- The initial `pc` (the diagonal-solve output) for `fixCxP`; it is
    realized by `dinv` values `200/83` and `1/80` on the two angles. -/
def fixCxPc0 : ℕ → ℚ := fun a => if a = 0 then 5 else 1 / 8

/-- A single-angle fixup input on which the loop terminates with
    `hv_x = 0` while the final trial flux on the x axis is still
    negative. -/
def flagCxP : FixupInTI :=
  { nang := 1
    psi := fun _ => 0
    psii := fun _ => 1
    psij := fun _ => 0
    psik := fun _ => 0
    mu := fun _ => 1 / 5
    eta := fun _ => 0
    xi := fun _ => 0
    hi := 1
    hj := 1
    hk := 1
    t_xs := 1 }

/-- The end-to-end scenario configuration of claim C2 (2×2×2 chunk, two
    angles, one moment, positive strides), with direction cosines
    `mu = 1`, `eta = xi = 0` and weights `w = 1`. -/
def scenarioCfg : SweepCfg :=
  { origin := ⟨0, 0, 0⟩
    xRange := 2
    yRange := 2
    zRange := 2
    corner := 0
    strideXPositive := true
    strideYPositive := true
    strideZPositive := true
    mmsSource := false
    numMoments := 1
    hi := 1
    hj := 1
    hk := 1
    vdelt := 0
    thrAngles := 1
    blockDimX := 2
    ec := fun _ => 0
    mu := fun _ => 1
    eta := fun _ => 0
    xi := fun _ => 0
    w := fun _ => 1 }

/-- The scenario memory of claim C2: uniform `qtot = 1.0`, uniform
    `dinv = 0.5`, all ghost-in buffers zero, zero initial flux. -/
def scenarioMem : SweepMem :=
  { qtot := fun _ l => if l = 0 then 1 else 0
    flux := fun _ => 0
    fluxm := fun _ _ => 0
    dinv := fun _ _ => 1 / 2
    timeFluxIn := fun _ _ => 0
    timeFluxOut := fun _ _ => 0
    t_xs := fun _ => 0
    ghostxOut := fun _ _ => 0
    ghostyOut := fun _ _ => 0
    ghostzOut := fun _ _ => 0
    qim := fun _ _ => 0
    ghostxIn := fun _ _ => 0
    ghostyIn := fun _ _ => 0
    ghostzIn := fun _ _ => 0 }

/-- Zero-initialized registers and scratch buffers. -/
def scenarioRegs : SweepRegs :=
  { psii := fun _ => 0
    psij := fun _ => 0
    psik := fun _ => 0
    pencil := fun _ _ => 0
    plane := fun _ _ _ => 0 }

/-!
## Theorems
-/

/-- C7: `initialize_gpu_context` aborts (assertion failure) if and only if
    `num_angles > 1024` (`MAX_ANGLES`), or `nx_per_chunk > 16`
    (`MAX_X_CHUNK`), or `ny_per_chunk > 16` (`MAX_Y_CHUNK`); when all
    three bounds hold it copies the `ec`, `mu`, `eta`, `xi` and `w`
    coefficient arrays into the global device tables and sets all 32
    scratch-pool slots to available (counter value 1). -/
theorem initialize_gpu_context_correct (ec_h mu_h eta_h xi_h w_h : List ℚ)
    (na nm no nx ny : ℕ) :
    (initialize_gpu_context ec_h mu_h eta_h xi_h w_h na nm no nx ny = none ↔
      na > MAX_ANGLES ∨ nx > MAX_X_CHUNK ∨ ny > MAX_Y_CHUNK) ∧
    (na ≤ MAX_ANGLES → nx ≤ MAX_X_CHUNK → ny ≤ MAX_Y_CHUNK →
      initialize_gpu_context ec_h mu_h eta_h xi_h w_h na nm no nx ny =
        some { availableChunks := List.replicate MAX_CTA 1
               deviceEc := ec_h.take (ecCopyCount na nm no)
               deviceMu := mu_h.take na
               deviceEta := eta_h.take na
               deviceXi := xi_h.take na
               deviceW := w_h.take na }) := by
  unfold initialize_gpu_context
  constructor
  · split_ifs with h1 h2 h3 <;> simp <;> omega
  · intro h1 h2 h3
    split_ifs with g1 g2 g3
    · omega
    · omega
    · omega
    · rfl

/-- Witness for C7 at a concrete in-bounds input. -/
theorem initialize_gpu_context_correct_witness :
    initialize_gpu_context [] [] [] [] [] 2 1 1 1 1 =
      some { availableChunks := List.replicate MAX_CTA 1
             deviceEc := List.take (ecCopyCount 2 1 1) []
             deviceMu := List.take 2 []
             deviceEta := List.take 2 []
             deviceXi := List.take 2 []
             deviceW := List.take 2 [] } :=
  (initialize_gpu_context_correct [] [] [] [] [] 2 1 1 1 1).2
    (by norm_num [MAX_ANGLES]) (by norm_num [MAX_X_CHUNK])
    (by norm_num [MAX_Y_CHUNK])

/-- C8: `run_gpu_sweep` computes `angles_per_thread` as the ceiling of
    `num_angles / 1024` (the least `k` with `num_angles ≤ k * 1024`),
    aborts fatally exactly when `num_angles` is not evenly divisible by
    `angles_per_thread` or `angles_per_thread` is neither 1 nor 2, and
    otherwise launches exactly the one kernel variant selected by the
    fixup flag and by `vdelt != 0` (time-dependent) versus `vdelt == 0`
    (time-independent), specialized to that `angles_per_thread`. -/
theorem run_gpu_sweep_correct (na : ℕ) (vdelt : ℚ) (fixup : Bool)
    (hna : 1 ≤ na) :
    (na ≤ ((na + 1024 - 1) / 1024) * 1024 ∧
      ∀ k, na ≤ k * 1024 → (na + 1024 - 1) / 1024 ≤ k) ∧
    (run_gpu_sweep na vdelt fixup = none ↔
      na % ((na + 1024 - 1) / 1024) ≠ 0 ∨
      ¬((na + 1024 - 1) / 1024 = 1 ∨ (na + 1024 - 1) / 1024 = 2)) ∧
    (na % ((na + 1024 - 1) / 1024) = 0 →
      ((na + 1024 - 1) / 1024 = 1 ∨ (na + 1024 - 1) / 1024 = 2) →
      run_gpu_sweep na vdelt fixup = some
        { variant :=
            if fixup then
              if vdelt ≠ 0 then .timeDependentWithFixup
              else .timeIndependentWithFixup
            else
              if vdelt ≠ 0 then .timeDependentWithoutFixup
              else .timeIndependentWithoutFixup
          thrAngles := (na + 1024 - 1) / 1024
          threadsPerCta := na / ((na + 1024 - 1) / 1024) }) := by
  have hd := Nat.div_add_mod (na + 1024 - 1) 1024
  have hm : (na + 1024 - 1) % 1024 < 1024 := Nat.mod_lt _ (by norm_num)
  set apt := (na + 1024 - 1) / 1024 with hapt
  have run_eq : run_gpu_sweep na vdelt fixup =
      if na % apt ≠ 0 then none
      else if apt = 1 ∨ apt = 2 then
        some { variant :=
                 if fixup then
                   if vdelt ≠ 0 then .timeDependentWithFixup
                   else .timeIndependentWithFixup
                 else
                   if vdelt ≠ 0 then .timeDependentWithoutFixup
                   else .timeIndependentWithoutFixup
               thrAngles := apt
               threadsPerCta := na / apt }
      else none := rfl
  refine ⟨⟨by omega, fun k hk => by omega⟩, ?_, ?_⟩
  · rw [run_eq]
    by_cases hmod : na % apt = 0
    · by_cases hsw : apt = 1 ∨ apt = 2
      · rw [if_neg (by simpa using hmod), if_pos hsw]
        constructor
        · intro h
          exact absurd h (by simp)
        · rintro (h | h)
          · exact absurd hmod h
          · exact absurd hsw h
      · rw [if_neg (by simpa using hmod), if_neg hsw]
        exact ⟨fun _ => Or.inr hsw, fun _ => rfl⟩
    · rw [if_pos hmod]
      exact ⟨fun _ => Or.inl hmod, fun _ => rfl⟩
  · intro h1 h2
    rw [run_eq, if_neg (by simpa using h1), if_pos h2]

/-- Witness for C8 at `num_angles = 2048`: `angles_per_thread = 2`,
    divisibility holds, and the time-independent no-fixup kernel is
    selected with 1024 threads per CTA. -/
theorem run_gpu_sweep_correct_witness :
    run_gpu_sweep 2048 0 false =
      some { variant := .timeIndependentWithoutFixup
             thrAngles := 2
             threadsPerCta := 1024 } := by
  have h := (run_gpu_sweep_correct 2048 0 false (by norm_num)).2.2
    (by norm_num) (by norm_num)
  norm_num at h
  simpa using h

/-- C10 (implicit): `initialize_gpu_context` bounds-checks only
    `num_angles`, `nx_per_chunk` and `ny_per_chunk`, so the input
    `num_angles = 1024`, `num_moments = 5`, `num_octants = 8` passes every
    check (the call succeeds) while the ec copy length
    `num_angles * num_moments * num_octants = 40960` exceeds the
    `device_ec` table capacity `8 * 4 * 1024 = 32768`. -/
theorem initialize_ec_copy_exceeds_capacity :
    (initialize_gpu_context [] [] [] [] [] 1024 5 8 16 16).isSome = true ∧
    ecCopyCount 1024 5 8 > ecTableCapacity := by
  with_unfolding_all decide

/-- C1 (code bug): the moment reduction indexes `device_ec` with the
    thread-local angle index (`offset + ang`), not with the per-lane
    global angle index (`offset + ang*blockDim.x + threadIdx.x`) that the
    angular-source step uses.  At `THR_ANGLES = 1`, `blockDim.x = 2`
    (two angles), `num_moments = 2`, `corner = 0`, moment `l = 1`
    (so `offset = 2`), the table `ec = (1,1,1,2,...)` and
    `weight * pc = 1` for every lane, the code's atomically-added value is
    `ec[2] + ec[2] = 2`, whereas the claimed sum
    `Σ_a ec[offset+a] * w[a] * pc[a] = ec[2] + ec[3] = 3`. -/
theorem moment_reduction_uses_local_angle_index :
    momentReductionTotal (fun i => if i = 3 then 2 else 1) 1 2 2
      (fun _ => 1) = 2 ∧
    specMomentReductionTotal (fun i => if i = 3 then 2 else 1) 1 2 2
      (fun _ => 1) = 3 ∧
    momentReductionTotal (fun i => if i = 3 then 2 else 1) 1 2 2
      (fun _ => 1) ≠
      specMomentReductionTotal (fun i => if i = 3 then 2 else 1) 1 2 2
        (fun _ => 1) := by
  with_unfolding_all decide

/-- C6: in every fixup-loop recomputation of `pc`, if the effective
    denominator (the cross-section `t_xs` plus the flag-weighted
    cosine-times-inverse-spacing terms, taken as 0 when the recomputed
    numerator is not positive) is below the tolerance `1.0e-12`, `pc` is
    forced to exactly 0; otherwise `pc` is divided by that denominator —
    in both kernel families, with no error raised in either case (the
    recompute is a total function). -/
theorem fixup_recompute_tolr_clamp (P : FixupInTI) (Q : FixupInTD)
    (hvx hvy hvz hvt : ℕ → ℚ) (a : ℕ) :
    (0 : ℚ) < tolr ∧
    ((if (P.psi a + 1 / 2 *
          (P.psii a * P.mu a * P.hi * (1 + hvx a) +
           P.psij a * P.eta a * P.hj * (1 + hvy a) +
           P.psik a * P.xi a * P.hk * (1 + hvz a))) ≤ 0 then (0 : ℚ) else
        P.t_xs + P.mu a * P.hi * hvx a + P.eta a * P.hj * hvy a +
          P.xi a * P.hk * hvz a) < tolr →
      fixupRecomputeTI P hvx hvy hvz a = 0) ∧
    (¬((if (P.psi a + 1 / 2 *
          (P.psii a * P.mu a * P.hi * (1 + hvx a) +
           P.psij a * P.eta a * P.hj * (1 + hvy a) +
           P.psik a * P.xi a * P.hk * (1 + hvz a))) ≤ 0 then (0 : ℚ) else
        P.t_xs + P.mu a * P.hi * hvx a + P.eta a * P.hj * hvy a +
          P.xi a * P.hk * hvz a) < tolr) →
      fixupRecomputeTI P hvx hvy hvz a =
        (P.psi a + 1 / 2 *
          (P.psii a * P.mu a * P.hi * (1 + hvx a) +
           P.psij a * P.eta a * P.hj * (1 + hvy a) +
           P.psik a * P.xi a * P.hk * (1 + hvz a))) /
        (if (P.psi a + 1 / 2 *
          (P.psii a * P.mu a * P.hi * (1 + hvx a) +
           P.psij a * P.eta a * P.hj * (1 + hvy a) +
           P.psik a * P.xi a * P.hk * (1 + hvz a))) ≤ 0 then (0 : ℚ) else
        P.t_xs + P.mu a * P.hi * hvx a + P.eta a * P.hj * hvy a +
          P.xi a * P.hk * hvz a)) ∧
    ((if (Q.psi a + 1 / 2 *
          (Q.psii a * Q.mu a * Q.hi * (1 + hvx a) +
           Q.psij a * Q.eta a * Q.hj * (1 + hvy a) +
           Q.psik a * Q.xi a * Q.hk * (1 + hvz a) +
           Q.timeFluxIn a * Q.vdelt * (1 + hvt a))) ≤ 0 then (0 : ℚ) else
        Q.t_xs + Q.mu a * Q.hi * hvx a + Q.eta a * Q.hj * hvy a +
          Q.xi a * Q.hk * hvz a + Q.vdelt * hvt a) < tolr →
      fixupRecomputeTD Q hvx hvy hvz hvt a = 0) ∧
    (¬((if (Q.psi a + 1 / 2 *
          (Q.psii a * Q.mu a * Q.hi * (1 + hvx a) +
           Q.psij a * Q.eta a * Q.hj * (1 + hvy a) +
           Q.psik a * Q.xi a * Q.hk * (1 + hvz a) +
           Q.timeFluxIn a * Q.vdelt * (1 + hvt a))) ≤ 0 then (0 : ℚ) else
        Q.t_xs + Q.mu a * Q.hi * hvx a + Q.eta a * Q.hj * hvy a +
          Q.xi a * Q.hk * hvz a + Q.vdelt * hvt a) < tolr) →
      fixupRecomputeTD Q hvx hvy hvz hvt a =
        (Q.psi a + 1 / 2 *
          (Q.psii a * Q.mu a * Q.hi * (1 + hvx a) +
           Q.psij a * Q.eta a * Q.hj * (1 + hvy a) +
           Q.psik a * Q.xi a * Q.hk * (1 + hvz a) +
           Q.timeFluxIn a * Q.vdelt * (1 + hvt a))) /
        (if (Q.psi a + 1 / 2 *
          (Q.psii a * Q.mu a * Q.hi * (1 + hvx a) +
           Q.psij a * Q.eta a * Q.hj * (1 + hvy a) +
           Q.psik a * Q.xi a * Q.hk * (1 + hvz a) +
           Q.timeFluxIn a * Q.vdelt * (1 + hvt a))) ≤ 0 then (0 : ℚ) else
        Q.t_xs + Q.mu a * Q.hi * hvx a + Q.eta a * Q.hj * hvy a +
          Q.xi a * Q.hk * hvz a + Q.vdelt * hvt a)) := by
  refine ⟨by norm_num [tolr], ?_, ?_, ?_, ?_⟩ <;>
    · intro h
      simp only [fixupRecomputeTI, fixupRecomputeTD]
      split_ifs at h ⊢ <;> rfl

/-- Witness for C6: a clamped case (denominator 0 because the numerator is
    not positive) and a divided case (denominator 1). -/
theorem fixup_recompute_tolr_clamp_witness :
    fixupRecomputeTI
      { nang := 1, psi := fun _ => -1, psii := fun _ => 0, psij := fun _ => 0
        psik := fun _ => 0, mu := fun _ => 0, eta := fun _ => 0
        xi := fun _ => 0, hi := 1, hj := 1, hk := 1, t_xs := 1 }
      (fun _ => 1) (fun _ => 1) (fun _ => 1) 0 = 0 ∧
    fixupRecomputeTD
      { nang := 1, psi := fun _ => 3, psii := fun _ => 0, psij := fun _ => 0
        psik := fun _ => 0, timeFluxIn := fun _ => 0, mu := fun _ => 0
        eta := fun _ => 0, xi := fun _ => 0, hi := 1, hj := 1, hk := 1
        vdelt := 0, t_xs := 1 }
      (fun _ => 1) (fun _ => 1) (fun _ => 1) (fun _ => 1) 0 = 3 := by
  constructor
  · exact (fixup_recompute_tolr_clamp
      { nang := 1, psi := fun _ => -1, psii := fun _ => 0, psij := fun _ => 0
        psik := fun _ => 0, mu := fun _ => 0, eta := fun _ => 0
        xi := fun _ => 0, hi := 1, hj := 1, hk := 1, t_xs := 1 }
      { nang := 1, psi := fun _ => 3, psii := fun _ => 0, psij := fun _ => 0
        psik := fun _ => 0, timeFluxIn := fun _ => 0, mu := fun _ => 0
        eta := fun _ => 0, xi := fun _ => 0, hi := 1, hj := 1, hk := 1
        vdelt := 0, t_xs := 1 }
      (fun _ => 1) (fun _ => 1) (fun _ => 1) (fun _ => 1) 0).2.1
      (by norm_num [tolr])
  · have h := (fixup_recompute_tolr_clamp
      { nang := 1, psi := fun _ => -1, psii := fun _ => 0, psij := fun _ => 0
        psik := fun _ => 0, mu := fun _ => 0, eta := fun _ => 0
        xi := fun _ => 0, hi := 1, hj := 1, hk := 1, t_xs := 1 }
      { nang := 1, psi := fun _ => 3, psii := fun _ => 0, psij := fun _ => 0
        psik := fun _ => 0, timeFluxIn := fun _ => 0, mu := fun _ => 0
        eta := fun _ => 0, xi := fun _ => 0, hi := 1, hj := 1, hk := 1
        vdelt := 0, t_xs := 1 }
      (fun _ => 1) (fun _ => 1) (fun _ => 1) (fun _ => 1) 0).2.2.2.2
      (by norm_num [tolr])
    norm_num at h
    exact h

/-- C5: in the no-fixup kernels the outgoing edge value for each axis
    (x, y, z, and time in the time-dependent variant) is `2*pc - incoming`
    with no iteration (`noFixupOut` is what `cellBodyTINoFix` and
    `cellBodyTDNoFix` write for every axis); and for a cell with zero
    source, zero incoming edge flux on all axes and `dinv = 0`, the
    computed `pc` is 0 and every outgoing flux equals that `pc`. -/
theorem no_fixup_outgoing_correct
    (pc inc psi psiiv psijv psikv tfin muv etav xiv hi hj hk vdelt dinvv : ℚ)
    (hpsi : psi = 0) (hii : psiiv = 0) (hij : psijv = 0) (hik : psikv = 0)
    (htf : tfin = 0) (hdinv : dinvv = 0) :
    noFixupOut pc inc = 2 * pc - inc ∧
    pcDiagTI psi psiiv psijv psikv muv etav xiv hi hj hk dinvv = 0 ∧
    pcDiagTD psi psiiv psijv psikv tfin muv etav xiv hi hj hk vdelt dinvv = 0 ∧
    noFixupOut
        (pcDiagTI psi psiiv psijv psikv muv etav xiv hi hj hk dinvv) psiiv =
      pcDiagTI psi psiiv psijv psikv muv etav xiv hi hj hk dinvv ∧
    noFixupOut
        (pcDiagTD psi psiiv psijv psikv tfin muv etav xiv hi hj hk vdelt dinvv)
        tfin =
      pcDiagTD psi psiiv psijv psikv tfin muv etav xiv hi hj hk vdelt dinvv := by
  subst hpsi hii hij hik htf hdinv
  refine ⟨rfl, ?_, ?_, ?_, ?_⟩ <;> simp [pcDiagTI, pcDiagTD, noFixupOut]

/-- Witness for C5 at concrete zero inputs. -/
theorem no_fixup_outgoing_correct_witness :
    noFixupOut 7 3 = 2 * 7 - 3 ∧
    pcDiagTI 0 0 0 0 1 1 1 1 1 1 0 = 0 ∧
    pcDiagTD 0 0 0 0 0 1 1 1 1 1 1 1 0 = 0 ∧
    noFixupOut (pcDiagTI 0 0 0 0 1 1 1 1 1 1 0) 0 =
      pcDiagTI 0 0 0 0 1 1 1 1 1 1 0 ∧
    noFixupOut (pcDiagTD 0 0 0 0 0 1 1 1 1 1 1 1 0) 0 =
      pcDiagTD 0 0 0 0 0 1 1 1 1 1 1 1 0 :=
  no_fixup_outgoing_correct 7 3 0 0 0 0 0 1 1 1 1 1 1 1 0
    rfl rfl rfl rfl rfl rfl

/-!
### Termination and flag invariants of the fixup loop
-/

/-- Unfolding equation for `fixupLoopTI` at successor fuel. -/
theorem fixupLoopTI_succ (P : FixupInTI) (f old : ℕ)
    (pc hvx hvy hvz : ℕ → ℚ) :
    fixupLoopTI P (f + 1) old pc hvx hvy hvz =
      if negCountTI P pc = old then
        ⟨pc,
         fun a => if 2 * pc a - P.psii a < 0 then 0 else hvx a,
         fun a => if 2 * pc a - P.psij a < 0 then 0 else hvy a,
         fun a => if 2 * pc a - P.psik a < 0 then 0 else hvz a,
         fun a => 2 * pc a - P.psii a,
         fun a => 2 * pc a - P.psij a,
         fun a => 2 * pc a - P.psik a, true⟩
      else
        fixupLoopTI P f (negCountTI P pc)
          (fun a => fixupRecomputeTI P
            (fun a => if 2 * pc a - P.psii a < 0 then 0 else hvx a)
            (fun a => if 2 * pc a - P.psij a < 0 then 0 else hvy a)
            (fun a => if 2 * pc a - P.psik a < 0 then 0 else hvz a) a)
          (fun a => if 2 * pc a - P.psii a < 0 then 0 else hvx a)
          (fun a => if 2 * pc a - P.psij a < 0 then 0 else hvy a)
          (fun a => if 2 * pc a - P.psik a < 0 then 0 else hvz a) := rfl

/-- Unfolding equation for `fixupLoopTI` at fuel 0. -/
theorem fixupLoopTI_zero (P : FixupInTI) (old : ℕ)
    (pc hvx hvy hvz : ℕ → ℚ) :
    fixupLoopTI P 0 old pc hvx hvy hvz =
      if negCountTI P pc = old then
        ⟨pc,
         fun a => if 2 * pc a - P.psii a < 0 then 0 else hvx a,
         fun a => if 2 * pc a - P.psij a < 0 then 0 else hvy a,
         fun a => if 2 * pc a - P.psik a < 0 then 0 else hvz a,
         fun a => 2 * pc a - P.psii a,
         fun a => 2 * pc a - P.psij a,
         fun a => 2 * pc a - P.psik a, true⟩
      else
        ⟨pc,
         fun a => if 2 * pc a - P.psii a < 0 then 0 else hvx a,
         fun a => if 2 * pc a - P.psij a < 0 then 0 else hvy a,
         fun a => if 2 * pc a - P.psik a < 0 then 0 else hvz a,
         fun a => 2 * pc a - P.psii a,
         fun a => 2 * pc a - P.psij a,
         fun a => 2 * pc a - P.psik a, false⟩ := rfl

/-- If the first evaluation already agrees with the previous count, the
    loop breaks immediately (at any fuel). -/
theorem fixupLoopTI_break_first (P : FixupInTI) (fuel old : ℕ)
    (pc hvx hvy hvz : ℕ → ℚ) (h : negCountTI P pc = old) :
    (fixupLoopTI P fuel old pc hvx hvy hvz).broke = true := by
  cases fuel with
  | zero => rw [fixupLoopTI_zero, if_pos h]
  | succ f => rw [fixupLoopTI_succ, if_pos h]

/-- `negCountTI` only consults `pc` below `nang`. -/
theorem negCountTI_congr (P : FixupInTI) {pc pc' : ℕ → ℚ}
    (h : ∀ a < P.nang, pc a = pc' a) :
    negCountTI P pc = negCountTI P pc' := by
  unfold negCountTI
  exact Finset.sum_congr rfl fun a ha => by
    rw [h a (Finset.mem_range.mp ha)]

/-- `fixupRecomputeTI` consults the flags only at the same angle. -/
theorem fixupRecomputeTI_congr (P : FixupInTI)
    {h1 h2 h3 g1 g2 g3 : ℕ → ℚ} (a : ℕ)
    (e1 : h1 a = g1 a) (e2 : h2 a = g2 a) (e3 : h3 a = g3 a) :
    fixupRecomputeTI P h1 h2 h3 a = fixupRecomputeTI P g1 g2 g3 a := by
  unfold fixupRecomputeTI
  rw [e1, e2, e3]

/-- A flag's contribution to the live-flag count cannot grow across an
    evaluation. -/
theorem flagTerm_le (c : Prop) [Decidable c] (v : ℚ) :
    (if (if c then (0:ℚ) else v) = 0 then (0:ℕ) else 1) ≤
      (if v = 0 then 0 else 1) := by
  by_cases hc : c
  · simp [hc]
  · simp [hc]

/-- A flag that an evaluation actually changes contributes strictly less
    afterwards. -/
theorem flagTerm_lt {c : Prop} [Decidable c] {v : ℚ}
    (h : (if c then (0:ℚ) else v) ≠ v) :
    (if (if c then (0:ℚ) else v) = 0 then (0:ℕ) else 1) <
      (if v = 0 then 0 else 1) := by
  by_cases hc : c
  · have hv : v ≠ 0 := by
      intro h0
      exact h (by simp [hc, h0])
    simp [hc, hv]
  · exfalso
    apply h
    simp [hc]

/-- An evaluation can only turn flags off, so the count of live flags does
    not grow, and it strictly shrinks when some flag changes at an angle
    below `nang`. -/
theorem hvFlagCountTI_eval_lt (P : FixupInTI) (pc h1 h2 h3 : ℕ → ℚ)
    (hne : ∃ a < P.nang,
      ¬((if 2 * pc a - P.psii a < 0 then (0:ℚ) else h1 a) = h1 a ∧
        (if 2 * pc a - P.psij a < 0 then (0:ℚ) else h2 a) = h2 a ∧
        (if 2 * pc a - P.psik a < 0 then (0:ℚ) else h3 a) = h3 a)) :
    hvFlagCountTI P
        (fun a => if 2 * pc a - P.psii a < 0 then 0 else h1 a)
        (fun a => if 2 * pc a - P.psij a < 0 then 0 else h2 a)
        (fun a => if 2 * pc a - P.psik a < 0 then 0 else h3 a) <
      hvFlagCountTI P h1 h2 h3 := by
  obtain ⟨w, hw, hwne⟩ := hne
  unfold hvFlagCountTI
  apply Finset.sum_lt_sum
  · intro a _
    beta_reduce
    have t1 := flagTerm_le (2 * pc a - P.psii a < 0) (h1 a)
    have t2 := flagTerm_le (2 * pc a - P.psij a < 0) (h2 a)
    have t3 := flagTerm_le (2 * pc a - P.psik a < 0) (h3 a)
    omega
  · refine ⟨w, Finset.mem_range.mpr hw, ?_⟩
    beta_reduce
    have t1 := flagTerm_le (2 * pc w - P.psii w < 0) (h1 w)
    have t2 := flagTerm_le (2 * pc w - P.psij w < 0) (h2 w)
    have t3 := flagTerm_le (2 * pc w - P.psik w < 0) (h3 w)
    rcases not_and_or.mp hwne with hc | hbc
    · have := flagTerm_lt hc
      omega
    · rcases not_and_or.mp hbc with hc | hc
      · have := flagTerm_lt hc
        omega
      · have := flagTerm_lt hc
        omega

/-- The live-flag count is at most `3 * nang`. -/
theorem hvFlagCountTI_le (P : FixupInTI) (h1 h2 h3 : ℕ → ℚ) :
    hvFlagCountTI P h1 h2 h3 ≤ 3 * P.nang := by
  unfold hvFlagCountTI
  calc Finset.sum (Finset.range P.nang) (fun a =>
        (if h1 a = 0 then 0 else 1) + (if h2 a = 0 then 0 else 1) +
        (if h3 a = 0 then 0 else 1))
      ≤ Finset.sum (Finset.range P.nang) (fun _ => 3) := by
        apply Finset.sum_le_sum
        intro a _
        split_ifs <;> omega
    _ = 3 * P.nang := by
        rw [Finset.sum_const, Finset.card_range, smul_eq_mul, mul_comm]

/-- Core termination argument (time-independent): once the loop is past
    its first evaluation, its `pc` argument is the recomputation from the
    current flags; if an evaluation changes no flag the next count
    repeats and the loop breaks, and otherwise the live-flag count
    strictly decreases. -/
theorem fixupLoopTI_broke_of_recompute (P : FixupInTI) :
    ∀ (k : ℕ) (h1 h2 h3 : ℕ → ℚ) (old fuel : ℕ),
      hvFlagCountTI P h1 h2 h3 ≤ k → k < fuel →
      (fixupLoopTI P fuel old (fun a => fixupRecomputeTI P h1 h2 h3 a)
        h1 h2 h3).broke = true := by
  intro k
  induction k using Nat.strong_induction_on with
  | _ k ih =>
    intro h1 h2 h3 old fuel hk hfuel
    obtain ⟨f, rfl⟩ : ∃ f, fuel = f + 1 := ⟨fuel - 1, by omega⟩
    rw [fixupLoopTI_succ]
    by_cases hbk : negCountTI P (fun a => fixupRecomputeTI P h1 h2 h3 a) = old
    · rw [if_pos hbk]
    · rw [if_neg hbk]
      by_cases hsame : ∀ a < P.nang,
          ((if 2 * fixupRecomputeTI P h1 h2 h3 a - P.psii a < 0 then (0:ℚ)
              else h1 a) = h1 a ∧
           (if 2 * fixupRecomputeTI P h1 h2 h3 a - P.psij a < 0 then (0:ℚ)
              else h2 a) = h2 a ∧
           (if 2 * fixupRecomputeTI P h1 h2 h3 a - P.psik a < 0 then (0:ℚ)
              else h3 a) = h3 a)
      · apply fixupLoopTI_break_first
        apply negCountTI_congr
        intro a ha
        exact fixupRecomputeTI_congr P a ((hsame a ha).1) ((hsame a ha).2.1)
          ((hsame a ha).2.2)
      · push_neg at hsame
        obtain ⟨w, hw, hwne⟩ := hsame
        have hlt := hvFlagCountTI_eval_lt P
          (fun a => fixupRecomputeTI P h1 h2 h3 a) h1 h2 h3
          ⟨w, hw, by
            intro hcon
            exact hwne hcon.1 hcon.2.1 hcon.2.2⟩
        beta_reduce at hlt
        exact ih (hvFlagCountTI P
            (fun a => if 2 * fixupRecomputeTI P h1 h2 h3 a - P.psii a < 0
              then 0 else h1 a)
            (fun a => if 2 * fixupRecomputeTI P h1 h2 h3 a - P.psij a < 0
              then 0 else h2 a)
            (fun a => if 2 * fixupRecomputeTI P h1 h2 h3 a - P.psik a < 0
              then 0 else h3 a))
          (by omega) _ _ _ _ f (le_refl _) (by omega)

/-- An evaluation writes either 0 or the previous flag value. -/
theorem evalFlag01 (c : Prop) [Decidable c] {v : ℚ} (hv : v = 0 ∨ v = 1) :
    (if c then (0:ℚ) else v) = 0 ∨ (if c then (0:ℚ) else v) = 1 := by
  split_ifs with h
  · exact Or.inl rfl
  · exact hv

/-- Through any number of iterations, the half-weight flags stay in
    `{0, 1}` (time-independent loop). -/
theorem fixupLoopTI_flags01 (P : FixupInTI) :
    ∀ (fuel old : ℕ) (pc h1 h2 h3 : ℕ → ℚ),
      (∀ a, h1 a = 0 ∨ h1 a = 1) → (∀ a, h2 a = 0 ∨ h2 a = 1) →
      (∀ a, h3 a = 0 ∨ h3 a = 1) →
      ∀ a,
        ((fixupLoopTI P fuel old pc h1 h2 h3).hvx a = 0 ∨
         (fixupLoopTI P fuel old pc h1 h2 h3).hvx a = 1) ∧
        ((fixupLoopTI P fuel old pc h1 h2 h3).hvy a = 0 ∨
         (fixupLoopTI P fuel old pc h1 h2 h3).hvy a = 1) ∧
        ((fixupLoopTI P fuel old pc h1 h2 h3).hvz a = 0 ∨
         (fixupLoopTI P fuel old pc h1 h2 h3).hvz a = 1) := by
  intro fuel
  induction fuel with
  | zero =>
    intro old pc h1 h2 h3 i1 i2 i3 a
    rw [fixupLoopTI_zero]
    split_ifs <;>
      exact ⟨evalFlag01 _ (i1 a), evalFlag01 _ (i2 a), evalFlag01 _ (i3 a)⟩
  | succ f ihf =>
    intro old pc h1 h2 h3 i1 i2 i3 a
    rw [fixupLoopTI_succ]
    split_ifs with hbk
    · exact ⟨evalFlag01 _ (i1 a), evalFlag01 _ (i2 a), evalFlag01 _ (i3 a)⟩
    · exact ihf _ _ _ _ _ (fun b => evalFlag01 _ (i1 b))
        (fun b => evalFlag01 _ (i2 b)) (fun b => evalFlag01 _ (i3 b)) a

/-- Unfolding equation for `fixupLoopTD` at successor fuel. -/
theorem fixupLoopTD_succ (P : FixupInTD) (f old : ℕ)
    (pc hvx hvy hvz hvt : ℕ → ℚ) :
    fixupLoopTD P (f + 1) old pc hvx hvy hvz hvt =
      if negCountTD P pc = old then
        ⟨pc,
         fun a => if 2 * pc a - P.psii a < 0 then 0 else hvx a,
         fun a => if 2 * pc a - P.psij a < 0 then 0 else hvy a,
         fun a => if 2 * pc a - P.psik a < 0 then 0 else hvz a,
         fun a => if 2 * pc a - P.timeFluxIn a < 0 then 0 else hvt a,
         fun a => 2 * pc a - P.psii a,
         fun a => 2 * pc a - P.psij a,
         fun a => 2 * pc a - P.psik a,
         fun a => 2 * pc a - P.timeFluxIn a, true⟩
      else
        fixupLoopTD P f (negCountTD P pc)
          (fun a => fixupRecomputeTD P
            (fun a => if 2 * pc a - P.psii a < 0 then 0 else hvx a)
            (fun a => if 2 * pc a - P.psij a < 0 then 0 else hvy a)
            (fun a => if 2 * pc a - P.psik a < 0 then 0 else hvz a)
            (fun a => if 2 * pc a - P.timeFluxIn a < 0 then 0 else hvt a) a)
          (fun a => if 2 * pc a - P.psii a < 0 then 0 else hvx a)
          (fun a => if 2 * pc a - P.psij a < 0 then 0 else hvy a)
          (fun a => if 2 * pc a - P.psik a < 0 then 0 else hvz a)
          (fun a => if 2 * pc a - P.timeFluxIn a < 0 then 0 else hvt a) := rfl

/-- Unfolding equation for `fixupLoopTD` at fuel 0. -/
theorem fixupLoopTD_zero (P : FixupInTD) (old : ℕ)
    (pc hvx hvy hvz hvt : ℕ → ℚ) :
    fixupLoopTD P 0 old pc hvx hvy hvz hvt =
      if negCountTD P pc = old then
        ⟨pc,
         fun a => if 2 * pc a - P.psii a < 0 then 0 else hvx a,
         fun a => if 2 * pc a - P.psij a < 0 then 0 else hvy a,
         fun a => if 2 * pc a - P.psik a < 0 then 0 else hvz a,
         fun a => if 2 * pc a - P.timeFluxIn a < 0 then 0 else hvt a,
         fun a => 2 * pc a - P.psii a,
         fun a => 2 * pc a - P.psij a,
         fun a => 2 * pc a - P.psik a,
         fun a => 2 * pc a - P.timeFluxIn a, true⟩
      else
        ⟨pc,
         fun a => if 2 * pc a - P.psii a < 0 then 0 else hvx a,
         fun a => if 2 * pc a - P.psij a < 0 then 0 else hvy a,
         fun a => if 2 * pc a - P.psik a < 0 then 0 else hvz a,
         fun a => if 2 * pc a - P.timeFluxIn a < 0 then 0 else hvt a,
         fun a => 2 * pc a - P.psii a,
         fun a => 2 * pc a - P.psij a,
         fun a => 2 * pc a - P.psik a,
         fun a => 2 * pc a - P.timeFluxIn a, false⟩ := rfl

/-- First-evaluation break for the time-dependent loop. -/
theorem fixupLoopTD_break_first (P : FixupInTD) (fuel old : ℕ)
    (pc hvx hvy hvz hvt : ℕ → ℚ) (h : negCountTD P pc = old) :
    (fixupLoopTD P fuel old pc hvx hvy hvz hvt).broke = true := by
  cases fuel with
  | zero => rw [fixupLoopTD_zero, if_pos h]
  | succ f => rw [fixupLoopTD_succ, if_pos h]

/-- `negCountTD` only consults `pc` below `nang`. -/
theorem negCountTD_congr (P : FixupInTD) {pc pc' : ℕ → ℚ}
    (h : ∀ a < P.nang, pc a = pc' a) :
    negCountTD P pc = negCountTD P pc' := by
  unfold negCountTD
  exact Finset.sum_congr rfl fun a ha => by
    rw [h a (Finset.mem_range.mp ha)]

/-- `fixupRecomputeTD` consults the flags only at the same angle. -/
theorem fixupRecomputeTD_congr (P : FixupInTD)
    {h1 h2 h3 h4 g1 g2 g3 g4 : ℕ → ℚ} (a : ℕ)
    (e1 : h1 a = g1 a) (e2 : h2 a = g2 a) (e3 : h3 a = g3 a)
    (e4 : h4 a = g4 a) :
    fixupRecomputeTD P h1 h2 h3 h4 a = fixupRecomputeTD P g1 g2 g3 g4 a := by
  unfold fixupRecomputeTD
  rw [e1, e2, e3, e4]

/-- Strict decrease of the live-flag count (time-dependent loop). -/
theorem hvFlagCountTD_eval_lt (P : FixupInTD) (pc h1 h2 h3 h4 : ℕ → ℚ)
    (hne : ∃ a < P.nang,
      ¬((if 2 * pc a - P.psii a < 0 then (0:ℚ) else h1 a) = h1 a ∧
        (if 2 * pc a - P.psij a < 0 then (0:ℚ) else h2 a) = h2 a ∧
        (if 2 * pc a - P.psik a < 0 then (0:ℚ) else h3 a) = h3 a ∧
        (if 2 * pc a - P.timeFluxIn a < 0 then (0:ℚ) else h4 a) = h4 a)) :
    hvFlagCountTD P
        (fun a => if 2 * pc a - P.psii a < 0 then 0 else h1 a)
        (fun a => if 2 * pc a - P.psij a < 0 then 0 else h2 a)
        (fun a => if 2 * pc a - P.psik a < 0 then 0 else h3 a)
        (fun a => if 2 * pc a - P.timeFluxIn a < 0 then 0 else h4 a) <
      hvFlagCountTD P h1 h2 h3 h4 := by
  obtain ⟨w, hw, hwne⟩ := hne
  unfold hvFlagCountTD
  apply Finset.sum_lt_sum
  · intro a _
    beta_reduce
    have t1 := flagTerm_le (2 * pc a - P.psii a < 0) (h1 a)
    have t2 := flagTerm_le (2 * pc a - P.psij a < 0) (h2 a)
    have t3 := flagTerm_le (2 * pc a - P.psik a < 0) (h3 a)
    have t4 := flagTerm_le (2 * pc a - P.timeFluxIn a < 0) (h4 a)
    omega
  · refine ⟨w, Finset.mem_range.mpr hw, ?_⟩
    beta_reduce
    have t1 := flagTerm_le (2 * pc w - P.psii w < 0) (h1 w)
    have t2 := flagTerm_le (2 * pc w - P.psij w < 0) (h2 w)
    have t3 := flagTerm_le (2 * pc w - P.psik w < 0) (h3 w)
    have t4 := flagTerm_le (2 * pc w - P.timeFluxIn w < 0) (h4 w)
    rcases not_and_or.mp hwne with hc | hbc
    · have := flagTerm_lt hc
      omega
    · rcases not_and_or.mp hbc with hc | hcc
      · have := flagTerm_lt hc
        omega
      · rcases not_and_or.mp hcc with hc | hc
        · have := flagTerm_lt hc
          omega
        · have := flagTerm_lt hc
          omega

/-- The live-flag count is at most `4 * nang` (time-dependent loop). -/
theorem hvFlagCountTD_le (P : FixupInTD) (h1 h2 h3 h4 : ℕ → ℚ) :
    hvFlagCountTD P h1 h2 h3 h4 ≤ 4 * P.nang := by
  unfold hvFlagCountTD
  calc Finset.sum (Finset.range P.nang) (fun a =>
        (if h1 a = 0 then 0 else 1) + (if h2 a = 0 then 0 else 1) +
        (if h3 a = 0 then 0 else 1) + (if h4 a = 0 then 0 else 1))
      ≤ Finset.sum (Finset.range P.nang) (fun _ => 4) := by
        apply Finset.sum_le_sum
        intro a _
        split_ifs <;> omega
    _ = 4 * P.nang := by
        rw [Finset.sum_const, Finset.card_range, smul_eq_mul, mul_comm]

/-- Core termination argument, time-dependent loop. -/
theorem fixupLoopTD_broke_of_recompute (P : FixupInTD) :
    ∀ (k : ℕ) (h1 h2 h3 h4 : ℕ → ℚ) (old fuel : ℕ),
      hvFlagCountTD P h1 h2 h3 h4 ≤ k → k < fuel →
      (fixupLoopTD P fuel old (fun a => fixupRecomputeTD P h1 h2 h3 h4 a)
        h1 h2 h3 h4).broke = true := by
  intro k
  induction k using Nat.strong_induction_on with
  | _ k ih =>
    intro h1 h2 h3 h4 old fuel hk hfuel
    obtain ⟨f, rfl⟩ : ∃ f, fuel = f + 1 := ⟨fuel - 1, by omega⟩
    rw [fixupLoopTD_succ]
    by_cases hbk : negCountTD P (fun a => fixupRecomputeTD P h1 h2 h3 h4 a) = old
    · rw [if_pos hbk]
    · rw [if_neg hbk]
      by_cases hsame : ∀ a < P.nang,
          ((if 2 * fixupRecomputeTD P h1 h2 h3 h4 a - P.psii a < 0 then (0:ℚ)
              else h1 a) = h1 a ∧
           (if 2 * fixupRecomputeTD P h1 h2 h3 h4 a - P.psij a < 0 then (0:ℚ)
              else h2 a) = h2 a ∧
           (if 2 * fixupRecomputeTD P h1 h2 h3 h4 a - P.psik a < 0 then (0:ℚ)
              else h3 a) = h3 a ∧
           (if 2 * fixupRecomputeTD P h1 h2 h3 h4 a - P.timeFluxIn a < 0
              then (0:ℚ) else h4 a) = h4 a)
      · apply fixupLoopTD_break_first
        apply negCountTD_congr
        intro a ha
        exact fixupRecomputeTD_congr P a ((hsame a ha).1) ((hsame a ha).2.1)
          ((hsame a ha).2.2.1) ((hsame a ha).2.2.2)
      · push_neg at hsame
        obtain ⟨w, hw, hwne⟩ := hsame
        have hlt := hvFlagCountTD_eval_lt P
          (fun a => fixupRecomputeTD P h1 h2 h3 h4 a) h1 h2 h3 h4
          ⟨w, hw, by
            intro hcon
            exact hwne hcon.1 hcon.2.1 hcon.2.2.1 hcon.2.2.2⟩
        beta_reduce at hlt
        exact ih (hvFlagCountTD P
            (fun a => if 2 * fixupRecomputeTD P h1 h2 h3 h4 a - P.psii a < 0
              then 0 else h1 a)
            (fun a => if 2 * fixupRecomputeTD P h1 h2 h3 h4 a - P.psij a < 0
              then 0 else h2 a)
            (fun a => if 2 * fixupRecomputeTD P h1 h2 h3 h4 a - P.psik a < 0
              then 0 else h3 a)
            (fun a => if 2 * fixupRecomputeTD P h1 h2 h3 h4 a - P.timeFluxIn a
              < 0 then 0 else h4 a))
          (by omega) _ _ _ _ _ f (le_refl _) (by omega)

/-- Through any number of iterations, the half-weight flags stay in
    `{0, 1}` (time-dependent loop). -/
theorem fixupLoopTD_flags01 (P : FixupInTD) :
    ∀ (fuel old : ℕ) (pc h1 h2 h3 h4 : ℕ → ℚ),
      (∀ a, h1 a = 0 ∨ h1 a = 1) → (∀ a, h2 a = 0 ∨ h2 a = 1) →
      (∀ a, h3 a = 0 ∨ h3 a = 1) → (∀ a, h4 a = 0 ∨ h4 a = 1) →
      ∀ a,
        ((fixupLoopTD P fuel old pc h1 h2 h3 h4).hvx a = 0 ∨
         (fixupLoopTD P fuel old pc h1 h2 h3 h4).hvx a = 1) ∧
        ((fixupLoopTD P fuel old pc h1 h2 h3 h4).hvy a = 0 ∨
         (fixupLoopTD P fuel old pc h1 h2 h3 h4).hvy a = 1) ∧
        ((fixupLoopTD P fuel old pc h1 h2 h3 h4).hvz a = 0 ∨
         (fixupLoopTD P fuel old pc h1 h2 h3 h4).hvz a = 1) ∧
        ((fixupLoopTD P fuel old pc h1 h2 h3 h4).hvt a = 0 ∨
         (fixupLoopTD P fuel old pc h1 h2 h3 h4).hvt a = 1) := by
  intro fuel
  induction fuel with
  | zero =>
    intro old pc h1 h2 h3 h4 i1 i2 i3 i4 a
    rw [fixupLoopTD_zero]
    split_ifs <;>
      exact ⟨evalFlag01 _ (i1 a), evalFlag01 _ (i2 a), evalFlag01 _ (i3 a),
        evalFlag01 _ (i4 a)⟩
  | succ f ihf =>
    intro old pc h1 h2 h3 h4 i1 i2 i3 i4 a
    rw [fixupLoopTD_succ]
    split_ifs with hbk
    · exact ⟨evalFlag01 _ (i1 a), evalFlag01 _ (i2 a), evalFlag01 _ (i3 a),
        evalFlag01 _ (i4 a)⟩
    · exact ihf _ _ _ _ _ _ (fun b => evalFlag01 _ (i1 b))
        (fun b => evalFlag01 _ (i2 b)) (fun b => evalFlag01 _ (i3 b))
        (fun b => evalFlag01 _ (i4 b)) a

/-- C3 (amended): for every cell processed by a fixup-enabled kernel
    variant the per-cell fixup loop always terminates through its break —
    within `(number of flux axes) * (angles per compute unit) + 2`
    evaluations, the fuel the kernels run it with — and never signals
    failure; the compute-unit-wide negative-trial-flux count, however, may
    increase between successive iterations (see the counterexample). -/
theorem fixup_loop_always_terminates :
    (∀ (P : FixupInTI) (pc0 : ℕ → ℚ), (fixupRunTI P pc0).broke = true) ∧
    (∀ (Q : FixupInTD) (pc0 : ℕ → ℚ), (fixupRunTD Q pc0).broke = true) := by
  constructor
  · intro P pc0
    unfold fixupRunTI
    rw [show 3 * P.nang + 2 = (3 * P.nang + 1) + 1 from rfl, fixupLoopTI_succ]
    by_cases hbk : negCountTI P pc0 = 0
    · rw [if_pos hbk]
    · rw [if_neg hbk]
      exact fixupLoopTI_broke_of_recompute P (3 * P.nang) _ _ _ _ _
        (hvFlagCountTI_le P _ _ _) (by omega)
  · intro Q pc0
    unfold fixupRunTD
    rw [show 4 * Q.nang + 2 = (4 * Q.nang + 1) + 1 from rfl, fixupLoopTD_succ]
    by_cases hbk : negCountTD Q pc0 = 0
    · rw [if_pos hbk]
    · rw [if_neg hbk]
      exact fixupLoopTD_broke_of_recompute Q (4 * Q.nang) _ _ _ _ _ _
        (hvFlagCountTD_le Q _ _ _ _) (by omega)

/-- C3 counterexample: on the two-angle input `fixCxP` (realizable in the
    kernel via `dinv = 200/83` and `1/80` on the two angles) the
    per-evaluation CTA-combined negative-flux counts are `[1,2,3,4,4]`:
    the count increases three times (refuting "never increases"), and the
    loop performs 5 evaluations, i.e. 4 iterations beyond the first —
    more than the claimed bound of 3 (the number of flux axes of the
    time-independent kernel). -/
theorem fixup_negative_count_counterexample :
    fixupCountsTI fixCxP (3 * fixCxP.nang + 2) 0 fixCxPc0
      (fun _ => 1) (fun _ => 1) (fun _ => 1) = [1, 2, 3, 4, 4] ∧
    (fixupCountsTI fixCxP (3 * fixCxP.nang + 2) 0 fixCxPc0
      (fun _ => 1) (fun _ => 1) (fun _ => 1)).get? 1 = some 2 ∧
    (fixupCountsTI fixCxP (3 * fixCxP.nang + 2) 0 fixCxPc0
      (fun _ => 1) (fun _ => 1) (fun _ => 1)).get? 2 = some 3 ∧
    (fixupCountsTI fixCxP (3 * fixCxP.nang + 2) 0 fixCxPc0
      (fun _ => 1) (fun _ => 1) (fun _ => 1)).length = 5 := by
  with_unfolding_all decide

/-- C4 (amended): in fixup-enabled kernel variants every per-axis
    half-weight flag is initialized to 1.0 and only ever assigned 0.0, so
    after the fixup loop terminates every flag equals 0 or 1; but an axis
    whose flag is 0 may still have a negative recomputed trial flux at
    the final evaluation (see the counterexample). -/
theorem fixup_flags_zero_or_one :
    (∀ (P : FixupInTI) (pc0 : ℕ → ℚ) (a : ℕ),
      ((fixupRunTI P pc0).hvx a = 0 ∨ (fixupRunTI P pc0).hvx a = 1) ∧
      ((fixupRunTI P pc0).hvy a = 0 ∨ (fixupRunTI P pc0).hvy a = 1) ∧
      ((fixupRunTI P pc0).hvz a = 0 ∨ (fixupRunTI P pc0).hvz a = 1)) ∧
    (∀ (Q : FixupInTD) (pc0 : ℕ → ℚ) (a : ℕ),
      ((fixupRunTD Q pc0).hvx a = 0 ∨ (fixupRunTD Q pc0).hvx a = 1) ∧
      ((fixupRunTD Q pc0).hvy a = 0 ∨ (fixupRunTD Q pc0).hvy a = 1) ∧
      ((fixupRunTD Q pc0).hvz a = 0 ∨ (fixupRunTD Q pc0).hvz a = 1) ∧
      ((fixupRunTD Q pc0).hvt a = 0 ∨ (fixupRunTD Q pc0).hvt a = 1)) := by
  constructor
  · intro P pc0 a
    exact fixupLoopTI_flags01 P _ _ _ _ _ _ (fun _ => Or.inr rfl)
      (fun _ => Or.inr rfl) (fun _ => Or.inr rfl) a
  · intro Q pc0 a
    exact fixupLoopTD_flags01 Q _ _ _ _ _ _ _ (fun _ => Or.inr rfl)
      (fun _ => Or.inr rfl) (fun _ => Or.inr rfl) (fun _ => Or.inr rfl) a

/-- C4 counterexample: on the single-angle input `flagCxP` with initial
    `pc = 2/5` the loop breaks with `hv_x = 0` while the trial flux of
    the x axis at the final evaluation is `-4/5 < 0`: a zeroed flag does
    not make the next recomputed trial flux non-negative. -/
theorem fixup_flag_zero_negative_final_flux :
    (fixupRunTI flagCxP (fun _ => 2 / 5)).broke = true ∧
    (fixupRunTI flagCxP (fun _ => 2 / 5)).hvx 0 = 0 ∧
    (fixupRunTI flagCxP (fun _ => 2 / 5)).fxx 0 < 0 := by
  with_unfolding_all decide

/-!
### Frame properties of the sweeps
-/

/-- `atomicAdd` commutes with a pointwise offset of the target field. -/
theorem atomicAdd_add (m f : Pt → ℚ) (pt : Pt) (v : ℚ) :
    atomicAdd (fun p => m p + f p) pt v =
      fun p => atomicAdd m pt v p + f p := by
  funext p
  unfold atomicAdd
  split_ifs <;> ring

/-- One moment-accumulation pass commutes with a pointwise offset. -/
theorem momentStep_add (cfg : SweepCfg) (pt : Pt) (psiW : ℕ → ℚ)
    (fm g : Pt → ℕ → ℚ) (l : ℕ) :
    momentStep cfg pt psiW (fun p m => fm p m + g p m) l =
      fun p m => momentStep cfg pt psiW fm l p m + g p m := by
  funext p m
  unfold momentStep
  split_ifs <;> ring

/-- The moment-accumulation fold commutes with a pointwise offset. -/
theorem momentFold_add (cfg : SweepCfg) (pt : Pt) (psiW : ℕ → ℚ) :
    ∀ (L : List ℕ) (fm g : Pt → ℕ → ℚ),
      L.foldl (momentStep cfg pt psiW) (fun p m => fm p m + g p m) =
        fun p m => L.foldl (momentStep cfg pt psiW) fm p m + g p m := by
  intro L
  induction L with
  | nil =>
    intro fm g
    rfl
  | cons hd tl ih =>
    intro fm g
    simp only [List.foldl_cons]
    rw [momentStep_add]
    exact ih (momentStep cfg pt psiW fm hd) g

/-- `momentAccum` commutes with a pointwise offset. -/
theorem momentAccum_add (cfg : SweepCfg) (pt : Pt) (psiW : ℕ → ℚ)
    (fm g : Pt → ℕ → ℚ) :
    momentAccum cfg pt psiW (fun p l => fm p l + g p l) =
      fun p l => momentAccum cfg pt psiW fm p l + g p l := by
  unfold momentAccum
  exact momentFold_add cfg pt psiW _ fm g

/-- The time-independent no-fixup cell body only adds to `flux`/`fluxm`. -/
theorem cellBodyTINoFix_addFlux (cfg : SweepCfg) (m : SweepMem)
    (r : SweepRegs) (f : Pt → ℚ) (g : Pt → ℕ → ℚ) (c : ℕ × ℕ × ℕ) :
    cellBodyTINoFix cfg (addFluxMem f g m, r) c =
      (addFluxMem f g (cellBodyTINoFix cfg (m, r) c).1,
       (cellBodyTINoFix cfg (m, r) c).2) := by
  unfold cellBodyTINoFix addFluxMem readPsii readPsij readPsik
  dsimp only
  refine Prod.ext ?_ rfl
  simp only [SweepMem.mk.injEq, and_true, true_and]
  refine ⟨?_, ?_⟩
  · exact atomicAdd_add m.flux f _ _
  · exact momentAccum_add cfg _ _ m.fluxm g

/-- The time-independent fixup cell body only adds to `flux`/`fluxm`. -/
theorem cellBodyTIFix_addFlux (cfg : SweepCfg) (m : SweepMem)
    (r : SweepRegs) (f : Pt → ℚ) (g : Pt → ℕ → ℚ) (c : ℕ × ℕ × ℕ) :
    cellBodyTIFix cfg (addFluxMem f g m, r) c =
      (addFluxMem f g (cellBodyTIFix cfg (m, r) c).1,
       (cellBodyTIFix cfg (m, r) c).2) := by
  unfold cellBodyTIFix addFluxMem readPsii readPsij readPsik
  dsimp only
  refine Prod.ext ?_ rfl
  simp only [SweepMem.mk.injEq, and_true, true_and]
  refine ⟨?_, ?_⟩
  · exact atomicAdd_add m.flux f _ _
  · exact momentAccum_add cfg _ _ m.fluxm g

/-- The time-dependent no-fixup cell body only adds to `flux`/`fluxm`. -/
theorem cellBodyTDNoFix_addFlux (cfg : SweepCfg) (m : SweepMem)
    (r : SweepRegs) (f : Pt → ℚ) (g : Pt → ℕ → ℚ) (c : ℕ × ℕ × ℕ) :
    cellBodyTDNoFix cfg (addFluxMem f g m, r) c =
      (addFluxMem f g (cellBodyTDNoFix cfg (m, r) c).1,
       (cellBodyTDNoFix cfg (m, r) c).2) := by
  unfold cellBodyTDNoFix addFluxMem readPsii readPsij readPsik
  dsimp only
  refine Prod.ext ?_ rfl
  simp only [SweepMem.mk.injEq, and_true, true_and]
  refine ⟨?_, ?_⟩
  · exact atomicAdd_add m.flux f _ _
  · exact momentAccum_add cfg _ _ m.fluxm g

/-- The time-dependent fixup cell body only adds to `flux`/`fluxm`. -/
theorem cellBodyTDFix_addFlux (cfg : SweepCfg) (m : SweepMem)
    (r : SweepRegs) (f : Pt → ℚ) (g : Pt → ℕ → ℚ) (c : ℕ × ℕ × ℕ) :
    cellBodyTDFix cfg (addFluxMem f g m, r) c =
      (addFluxMem f g (cellBodyTDFix cfg (m, r) c).1,
       (cellBodyTDFix cfg (m, r) c).2) := by
  unfold cellBodyTDFix addFluxMem readPsii readPsij readPsik
  dsimp only
  refine Prod.ext ?_ rfl
  simp only [SweepMem.mk.injEq, and_true, true_and]
  refine ⟨?_, ?_⟩
  · exact atomicAdd_add m.flux f _ _
  · exact momentAccum_add cfg _ _ m.fluxm g

/-- Lift a per-cell additivity property through the chunk fold. -/
theorem foldl_addFlux
    (cb : (SweepMem × SweepRegs) → (ℕ × ℕ × ℕ) → SweepMem × SweepRegs)
    (f : Pt → ℚ) (g : Pt → ℕ → ℚ)
    (hcb : ∀ m r c, cb (addFluxMem f g m, r) c =
      (addFluxMem f g (cb (m, r) c).1, (cb (m, r) c).2)) :
    ∀ (L : List (ℕ × ℕ × ℕ)) (m : SweepMem) (r : SweepRegs),
      L.foldl cb (addFluxMem f g m, r) =
        (addFluxMem f g (L.foldl cb (m, r)).1, (L.foldl cb (m, r)).2) := by
  intro L
  induction L with
  | nil =>
    intro m r
    rfl
  | cons hd tl ih =>
    intro m r
    simp only [List.foldl_cons]
    rw [hcb]
    exact ih (cb (m, r) hd).1 (cb (m, r) hd).2

/-- Read-only preservation is transitive. -/
theorem roPreserved_trans {m m' m'' : SweepMem}
    (h1 : roPreserved m m') (h2 : roPreserved m' m'') :
    roPreserved m m'' := by
  obtain ⟨a1, a2, a3, a4, a5, a6, a7, a8⟩ := h1
  obtain ⟨b1, b2, b3, b4, b5, b6, b7, b8⟩ := h2
  exact ⟨b1.trans a1, b2.trans a2, b3.trans a3, b4.trans a4, b5.trans a5,
    b6.trans a6, b7.trans a7, b8.trans a8⟩

/-- Lift per-cell read-only preservation through the chunk fold. -/
theorem foldl_roPreserved
    (cb : (SweepMem × SweepRegs) → (ℕ × ℕ × ℕ) → SweepMem × SweepRegs)
    (hro : ∀ m r c, roPreserved m (cb (m, r) c).1) :
    ∀ (L : List (ℕ × ℕ × ℕ)) (m : SweepMem) (r : SweepRegs),
      roPreserved m ((L.foldl cb (m, r)).1) := by
  intro L
  induction L with
  | nil =>
    intro m r
    exact ⟨rfl, rfl, rfl, rfl, rfl, rfl, rfl, rfl⟩
  | cons hd tl ih =>
    intro m r
    exact roPreserved_trans (hro m r hd) (ih (cb (m, r) hd).1 (cb (m, r) hd).2)

/-- Each cell body leaves the read-only inputs untouched
    (time-independent, no fixup). -/
theorem cellBodyTINoFix_ro (cfg : SweepCfg) (m : SweepMem) (r : SweepRegs)
    (c : ℕ × ℕ × ℕ) : roPreserved m (cellBodyTINoFix cfg (m, r) c).1 :=
  ⟨rfl, rfl, rfl, rfl, rfl, rfl, rfl, rfl⟩

/-- Each cell body leaves the read-only inputs untouched
    (time-independent, fixup). -/
theorem cellBodyTIFix_ro (cfg : SweepCfg) (m : SweepMem) (r : SweepRegs)
    (c : ℕ × ℕ × ℕ) : roPreserved m (cellBodyTIFix cfg (m, r) c).1 :=
  ⟨rfl, rfl, rfl, rfl, rfl, rfl, rfl, rfl⟩

/-- Each cell body leaves the read-only inputs untouched
    (time-dependent, no fixup). -/
theorem cellBodyTDNoFix_ro (cfg : SweepCfg) (m : SweepMem) (r : SweepRegs)
    (c : ℕ × ℕ × ℕ) : roPreserved m (cellBodyTDNoFix cfg (m, r) c).1 :=
  ⟨rfl, rfl, rfl, rfl, rfl, rfl, rfl, rfl⟩

/-- Each cell body leaves the read-only inputs untouched
    (time-dependent, fixup). -/
theorem cellBodyTDFix_ro (cfg : SweepCfg) (m : SweepMem) (r : SweepRegs)
    (c : ℕ × ℕ × ℕ) : roPreserved m (cellBodyTDFix cfg (m, r) c).1 :=
  ⟨rfl, rfl, rfl, rfl, rfl, rfl, rfl, rfl⟩

/-- C9: for every kernel variant the caller-owned scalar flux and moment
    fields are only ever added to (through the compare-and-swap
    `atomicAdd`), never overwritten — running a sweep on a state whose
    flux/moment fields carry an arbitrary pointwise offset yields exactly
    the offset plus the sweep's own contribution — and the read-only
    inputs (`qtot`, `dinv`, `t_xs`, `qim`, `time_flux_in`, and the three
    ghost-in buffers) are unchanged by the invocation. -/
theorem sweep_only_accumulates_flux :
    (∀ (cfg : SweepCfg) (m : SweepMem) (r : SweepRegs)
        (f : Pt → ℚ) (g : Pt → ℕ → ℚ),
      gpu_time_dependent_sweep_with_fixup cfg (addFluxMem f g m, r) =
        (addFluxMem f g (gpu_time_dependent_sweep_with_fixup cfg (m, r)).1,
         (gpu_time_dependent_sweep_with_fixup cfg (m, r)).2) ∧
      roPreserved m (gpu_time_dependent_sweep_with_fixup cfg (m, r)).1) ∧
    (∀ (cfg : SweepCfg) (m : SweepMem) (r : SweepRegs)
        (f : Pt → ℚ) (g : Pt → ℕ → ℚ),
      gpu_time_dependent_sweep_without_fixup cfg (addFluxMem f g m, r) =
        (addFluxMem f g
          (gpu_time_dependent_sweep_without_fixup cfg (m, r)).1,
         (gpu_time_dependent_sweep_without_fixup cfg (m, r)).2) ∧
      roPreserved m (gpu_time_dependent_sweep_without_fixup cfg (m, r)).1) ∧
    (∀ (cfg : SweepCfg) (m : SweepMem) (r : SweepRegs)
        (f : Pt → ℚ) (g : Pt → ℕ → ℚ),
      gpu_time_independent_sweep_with_fixup cfg (addFluxMem f g m, r) =
        (addFluxMem f g
          (gpu_time_independent_sweep_with_fixup cfg (m, r)).1,
         (gpu_time_independent_sweep_with_fixup cfg (m, r)).2) ∧
      roPreserved m (gpu_time_independent_sweep_with_fixup cfg (m, r)).1) ∧
    (∀ (cfg : SweepCfg) (m : SweepMem) (r : SweepRegs)
        (f : Pt → ℚ) (g : Pt → ℕ → ℚ),
      gpu_time_independent_sweep_without_fixup cfg (addFluxMem f g m, r) =
        (addFluxMem f g
          (gpu_time_independent_sweep_without_fixup cfg (m, r)).1,
         (gpu_time_independent_sweep_without_fixup cfg (m, r)).2) ∧
      roPreserved m
        (gpu_time_independent_sweep_without_fixup cfg (m, r)).1) := by
  refine ⟨fun cfg m r f g => ⟨?_, ?_⟩, fun cfg m r f g => ⟨?_, ?_⟩,
    fun cfg m r f g => ⟨?_, ?_⟩, fun cfg m r f g => ⟨?_, ?_⟩⟩
  · exact foldl_addFlux (cellBodyTDFix cfg) f g
      (fun m' r' c => cellBodyTDFix_addFlux cfg m' r' f g c) _ m r
  · exact foldl_roPreserved (cellBodyTDFix cfg)
      (fun m' r' c => cellBodyTDFix_ro cfg m' r' c) _ m r
  · exact foldl_addFlux (cellBodyTDNoFix cfg) f g
      (fun m' r' c => cellBodyTDNoFix_addFlux cfg m' r' f g c) _ m r
  · exact foldl_roPreserved (cellBodyTDNoFix cfg)
      (fun m' r' c => cellBodyTDNoFix_ro cfg m' r' c) _ m r
  · exact foldl_addFlux (cellBodyTIFix cfg) f g
      (fun m' r' c => cellBodyTIFix_addFlux cfg m' r' f g c) _ m r
  · exact foldl_roPreserved (cellBodyTIFix cfg)
      (fun m' r' c => cellBodyTIFix_ro cfg m' r' c) _ m r
  · exact foldl_addFlux (cellBodyTINoFix cfg) f g
      (fun m' r' c => cellBodyTINoFix_addFlux cfg m' r' f g c) _ m r
  · exact foldl_roPreserved (cellBodyTINoFix cfg)
      (fun m' r' c => cellBodyTINoFix_ro cfg m' r' c) _ m r

/-- C2 counterexample: in the exact scenario of the claim (2×2×2 chunk,
    2 angles, `num_moments = 1`, no fixup, zero ghost-in, `qtot = 1.0`,
    `dinv = 0.5`, here with `mu = 1`, `hi = 1`, `w = 1`), the cell at
    chunk position (1,0,0) receives incoming x edge flux 1.0 from its
    upstream neighbour, so its flux increment is 2, not
    `Σ_angle w * 0.5 = 1`: `pc` is not 0.5 regardless of position. -/
theorem scenario_flux_counterexample :
    (gpu_time_independent_sweep_without_fixup scenarioCfg
        (scenarioMem, scenarioRegs)).1.flux ⟨1, 0, 0⟩ = 2 ∧
    Finset.sum (Finset.range 2) (fun a => scenarioCfg.w a * (1 / 2)) = 1 ∧
    (gpu_time_independent_sweep_without_fixup scenarioCfg
        (scenarioMem, scenarioRegs)).1.flux ⟨1, 0, 0⟩ ≠
      Finset.sum (Finset.range 2) (fun a => scenarioCfg.w a * (1 / 2)) := by
  with_unfolding_all decide

/-- C2 (amended): for the scenario of the claim (2×2×2 chunk, two angles,
    `num_moments = 1`, fixup disabled, uniform `qtot = 1.0`, uniform
    `dinv = 0.5`, zero ghost-in buffers, positive strides) the flux
    increment of a cell equals `Σ_angle weight[angle] * 0.5` — i.e.
    `pc = 0.5` — for EVERY cell of the chunk provided additionally each
    direction-cosine × inverse-spacing product (`mu*hi`, `eta*hj`,
    `xi*hk`) is zero; without that proviso it holds only where the
    incoming edge fluxes vanish (the sweep-origin cell), because interior
    cells receive the upstream outgoing flux `2*pc - 0 = 1.0`, as the
    counterexample shows. -/
theorem scenario_flux_uniform
    (origin : Pt) (corner : ℕ) (ec mu eta xi w : ℕ → ℚ) (hi hj hk : ℚ)
    (m : SweepMem) (r : SweepRegs)
    (hmu : ∀ a, mu a * hi = 0) (heta : ∀ a, eta a * hj = 0)
    (hxi : ∀ a, xi a * hk = 0)
    (hq : ∀ p l, m.qtot p l = if l = 0 then 1 else 0)
    (hdinv : ∀ p a, m.dinv p a = 1 / 2)
    (hgx : ∀ p a, m.ghostxIn p a = 0) (hgy : ∀ p a, m.ghostyIn p a = 0)
    (hgz : ∀ p a, m.ghostzIn p a = 0)
    (x y z : ℕ) (hx : x < 2) (hy : y < 2) (hz : z < 2) :
    (gpu_time_independent_sweep_without_fixup
        { origin := origin, xRange := 2, yRange := 2, zRange := 2
          corner := corner, strideXPositive := true, strideYPositive := true
          strideZPositive := true, mmsSource := false, numMoments := 1
          hi := hi, hj := hj, hk := hk, vdelt := 0
          thrAngles := 1, blockDimX := 2
          ec := ec, mu := mu, eta := eta, xi := xi, w := w }
        (m, r)).1.flux (localPoint origin true true true x y z) =
      m.flux (localPoint origin true true true x y z) +
        Finset.sum (Finset.range 2) (fun a => w a * (1 / 2)) := by
  have hpc : ∀ (pi pj pk : ℚ) (a : ℕ),
      pcDiagTI 1 pi pj pk (mu a) (eta a) (xi a) hi hj hk (1 / 2) = 1 / 2 := by
    intro pi pj pk a
    unfold pcDiagTI
    rw [mul_assoc pi, hmu a, mul_assoc pj, heta a, mul_assoc pk, hxi a]
    ring
  have cell : ∀ (m' : SweepMem) (r' : SweepRegs) (c : ℕ × ℕ × ℕ),
      m'.qtot = m.qtot → m'.dinv = m.dinv →
      (cellBodyTINoFix
          { origin := origin, xRange := 2, yRange := 2, zRange := 2
            corner := corner, strideXPositive := true
            strideYPositive := true, strideZPositive := true
            mmsSource := false, numMoments := 1
            hi := hi, hj := hj, hk := hk, vdelt := 0
            thrAngles := 1, blockDimX := 2
            ec := ec, mu := mu, eta := eta, xi := xi, w := w }
          (m', r') c).1.flux =
        atomicAdd m'.flux (localPoint origin true true true c.1 c.2.1 c.2.2)
          (Finset.sum (Finset.range 2) (fun a => w a * (1 / 2))) := by
    intro m' r' c e1 e2
    unfold cellBodyTINoFix
    dsimp only
    rw [show cfgNang
        { origin := origin, xRange := 2, yRange := 2, zRange := 2
          corner := corner, strideXPositive := true
          strideYPositive := true, strideZPositive := true
          mmsSource := false, numMoments := 1
          hi := hi, hj := hj, hk := hk, vdelt := 0
          thrAngles := 1, blockDimX := 2
          ec := ec, mu := mu, eta := eta, xi := xi, w := w } = 2 from rfl]
    apply congrArg
    apply Finset.sum_congr rfl
    intro a _
    have hsrc : sourcePsi
        { origin := origin, xRange := 2, yRange := 2, zRange := 2
          corner := corner, strideXPositive := true
          strideYPositive := true, strideZPositive := true
          mmsSource := false, numMoments := 1
          hi := hi, hj := hj, hk := hk, vdelt := 0
          thrAngles := 1, blockDimX := 2
          ec := ec, mu := mu, eta := eta, xi := xi, w := w }
        m'.qtot m'.qim
        (localPoint origin true true true c.1 c.2.1 c.2.2) a = 1 := by
      unfold sourcePsi
      dsimp only
      rw [e1, hq]
      simp
    rw [e2]
    rw [hsrc, hdinv, hpc]
  have fold : ∀ (L : List (ℕ × ℕ × ℕ)) (m' : SweepMem) (r' : SweepRegs),
      roPreserved m m' →
      (L.foldl (cellBodyTINoFix
          { origin := origin, xRange := 2, yRange := 2, zRange := 2
            corner := corner, strideXPositive := true
            strideYPositive := true, strideZPositive := true
            mmsSource := false, numMoments := 1
            hi := hi, hj := hj, hk := hk, vdelt := 0
            thrAngles := 1, blockDimX := 2
            ec := ec, mu := mu, eta := eta, xi := xi, w := w })
        (m', r')).1.flux =
        fun p => m'.flux p +
          (((L.map (fun c =>
              localPoint origin true true true c.1 c.2.1 c.2.2)).count p : ℚ)) *
            Finset.sum (Finset.range 2) (fun a => w a * (1 / 2)) := by
    intro L
    induction L with
    | nil =>
      intro m' r' hro
      funext p
      simp
    | cons hd tl ih =>
      intro m' r' hro
      simp only [List.foldl_cons]
      have hro' : roPreserved m (cellBodyTINoFix
          { origin := origin, xRange := 2, yRange := 2, zRange := 2
            corner := corner, strideXPositive := true
            strideYPositive := true, strideZPositive := true
            mmsSource := false, numMoments := 1
            hi := hi, hj := hj, hk := hk, vdelt := 0
            thrAngles := 1, blockDimX := 2
            ec := ec, mu := mu, eta := eta, xi := xi, w := w }
          (m', r') hd).1 :=
        roPreserved_trans hro (cellBodyTINoFix_ro _ m' r' hd)
      rw [ih _ _ hro']
      funext p
      rw [cell m' r' hd hro.1 hro.2.1]
      unfold atomicAdd
      simp only [List.map_cons, List.count_cons, beq_iff_eq]
      push_cast
      split_ifs with h1 h2 h2
      · ring
      · exact absurd h1.symm h2
      · exact absurd h2.symm h1
      · ring
  have hro0 : roPreserved m m := ⟨rfl, rfl, rfl, rfl, rfl, rfl, rfl, rfl⟩
  unfold gpu_time_independent_sweep_without_fixup
  dsimp only
  rw [fold _ m r hro0]
  have hsc : sweepCells 2 2 2 =
      [(0,0,0), (1,0,0), (0,1,0), (1,1,0),
       (0,0,1), (1,0,1), (0,1,1), (1,1,1)] := by
    with_unfolding_all decide
  have hcount : ((((sweepCells 2 2 2).map (fun c =>
      localPoint origin true true true c.1 c.2.1 c.2.2)).count
        (localPoint origin true true true x y z) : ℕ)) = 1 := by
    rw [hsc]
    interval_cases x <;> interval_cases y <;> interval_cases z <;>
      · simp [List.count_cons, localPoint, Pt.mk.injEq]
  beta_reduce
  rw [hcount]
  push_cast
  ring

/-- Witness for C2 (amended) at zero direction cosines, unit weights,
    origin (0,0,0) and the scenario memory: the cell at chunk position
    (1,0,0) is incremented by exactly the sum over the two angles of
    `1 * (1/2)`. -/
theorem scenario_flux_uniform_witness :
    (gpu_time_independent_sweep_without_fixup
        { origin := ⟨0, 0, 0⟩, xRange := 2, yRange := 2, zRange := 2
          corner := 0, strideXPositive := true, strideYPositive := true
          strideZPositive := true, mmsSource := false, numMoments := 1
          hi := 1, hj := 1, hk := 1, vdelt := 0
          thrAngles := 1, blockDimX := 2
          ec := fun _ => 0, mu := fun _ => 0, eta := fun _ => 0
          xi := fun _ => 0, w := fun _ => 1 }
        (scenarioMem, scenarioRegs)).1.flux
      (localPoint ⟨0, 0, 0⟩ true true true 1 0 0) =
      scenarioMem.flux (localPoint ⟨0, 0, 0⟩ true true true 1 0 0) +
        Finset.sum (Finset.range 2) (fun _ => (1 : ℚ) * (1 / 2)) := by
  exact scenario_flux_uniform ⟨0, 0, 0⟩ 0 (fun _ => 0) (fun _ => 0)
    (fun _ => 0) (fun _ => 0) (fun _ => 1) 1 1 1 scenarioMem scenarioRegs
    (fun _ => by norm_num) (fun _ => by norm_num) (fun _ => by norm_num)
    (fun _ _ => rfl) (fun _ _ => rfl) (fun _ _ => rfl) (fun _ _ => rfl)
    (fun _ _ => rfl) 1 0 0 (by norm_num) (by norm_num) (by norm_num)
